import Mathlib

/-!
Verification development for the DNSResolver repository (Python).

The Python source is shallowly embedded:
* Python `str` is modelled as `List Char` (`PyStr`); `bytes` as `List Nat`
  (each element a byte value).  Python string primitives (`split`, `join`,
  `lower`, `strip`) are realised as recursive Lean functions with the same
  semantics on the inputs the program handles (domain names are ASCII; the
  ASCII-only `pyLowerChar` coincides with Python `str.lower` there).
* Fallible Python operations (struct unpacking, enum construction from wire
  values, out-of-range indexing) return `Option`; uncaught Python exceptions
  in the resolver engine are an explicit error constructor.
* The stateful resolver engine (`DNSResolver.recursive_query`) is a fuel-based
  function over an explicit state (cache + root-server list) with the network
  transport `send_query` abstracted as an oracle parameter.  Ghost outputs
  record the number of network calls and the largest `recursion_count` of any
  entered invocation; they do not influence control flow.

All definitions are translated from `src/DNSResolver/DNSPacket.py` and
`src/DNSResolver/DNSResolver.py` (the module actually exported for the engine).
-/

set_option maxHeartbeats 1000000

namespace DNS

/-- Python `str`, modelled as a list of characters. -/
abbrev PyStr := List Char

/-- Coercion helper from Lean string literals to `PyStr`. -/
def pys (s : String) : PyStr := s.data

/-- Python `str.split(sep)` for a one-character separator: splits on every
occurrence, keeping empty parts (so the result has one part more than the
number of separators). -/
def pySplit (sep : Char) : PyStr → List PyStr
  | [] => [[]]
  | c :: rest =>
    match pySplit sep rest with
    | [] => []
    | p :: ps => if c = sep then [] :: p :: ps else (c :: p) :: ps

/-- Python `sep.join(parts)` for list-of-strings. -/
def pyJoin (sep : PyStr) : List PyStr → PyStr
  | [] => []
  | [x] => x
  | x :: y :: ys => x ++ sep ++ pyJoin sep (y :: ys)

/-- ASCII lower-casing of one character.  Python `str.lower` is full Unicode;
the two agree on ASCII, which is all the resolver feeds it (domain names). -/
def pyLowerChar (c : Char) : Char :=
  if 'A' ≤ c ∧ c ≤ 'Z' then Char.ofNat (c.toNat + 32) else c

/-- Python `str.lower` (ASCII fragment). -/
def pyLower (s : PyStr) : PyStr := s.map pyLowerChar

/-- Python `str.strip(".")`: removes all leading and trailing dots. -/
def stripDots (s : PyStr) : PyStr :=
  ((s.dropWhile (· = '.')).reverse.dropWhile (· = '.')).reverse

/-- Python slice `data[i:j]` for `i ≤ j` (out-of-range silently truncates). -/
def sliceBytes (data : List Nat) (i j : Nat) : List Nat :=
  (data.drop i).take (j - i)

/-- Big-endian 16-bit unpack at index `i` (fails on a short buffer, like
`struct.unpack`). -/
def read16 (data : List Nat) (i : Nat) : Option Nat :=
  match data[i]?, data[i+1]? with
  | some a, some b => some (a * 256 + b)
  | _, _ => none

/-- Big-endian 32-bit unpack at index `i`. -/
def read32 (data : List Nat) (i : Nat) : Option Nat :=
  match data[i]?, data[i+1]?, data[i+2]?, data[i+3]? with
  | some a, some b, some c, some d =>
    some (((a * 256 + b) * 256 + c) * 256 + d)
  | _, _, _, _ => none

/-- Big-endian 16-bit pack (`struct.pack ">H"`; Python raises when the value
exceeds 0xFFFF, theorems about packing therefore carry that bound). -/
def pack16 (v : Nat) : List Nat := [v / 256, v % 256]

/-- Big-endian 32-bit pack (`struct.pack ">I"`). -/
def pack32 (v : Nat) : List Nat :=
  [v / 16777216, v / 65536 % 256, v / 256 % 256, v % 256]

/-- Enumeration `QR` of DNSPacket.py. -/
inductive QR | QUERY | RESPONSE
deriving DecidableEq, Fintype

/-- Wire value of a `QR`. -/
def QR.val : QR → Nat
  | .QUERY => 0
  | .RESPONSE => 1

/-- Python `QR(value)`: enum lookup by wire value, `None` models `ValueError`. -/
def QR.ofNat? : Nat → Option QR
  | 0 => some .QUERY
  | 1 => some .RESPONSE
  | _ => none

/-- Enumeration `OPCODE` of DNSPacket.py. -/
inductive OPCODE | QUERY | IQUERY | STATUS
deriving DecidableEq, Fintype

/-- Wire value of an `OPCODE`. -/
def OPCODE.val : OPCODE → Nat
  | .QUERY => 0
  | .IQUERY => 1
  | .STATUS => 2

/-- Python `OPCODE(value)`. -/
def OPCODE.ofNat? : Nat → Option OPCODE
  | 0 => some .QUERY
  | 1 => some .IQUERY
  | 2 => some .STATUS
  | _ => none

/-- Enumeration `AA` of DNSPacket.py. -/
inductive AA | NOT_AUTHORITATIVE | AUTHORITATIVE
deriving DecidableEq, Fintype

/-- Wire value of an `AA`. -/
def AA.val : AA → Nat
  | .NOT_AUTHORITATIVE => 0
  | .AUTHORITATIVE => 1

/-- Python `AA(value)`. -/
def AA.ofNat? : Nat → Option AA
  | 0 => some .NOT_AUTHORITATIVE
  | 1 => some .AUTHORITATIVE
  | _ => none

/-- Enumeration `TC` of DNSPacket.py. -/
inductive TC | NOT_TRUNCATED | TRUNCATED
deriving DecidableEq, Fintype

/-- Wire value of a `TC`. -/
def TC.val : TC → Nat
  | .NOT_TRUNCATED => 0
  | .TRUNCATED => 1

/-- Python `TC(value)`. -/
def TC.ofNat? : Nat → Option TC
  | 0 => some .NOT_TRUNCATED
  | 1 => some .TRUNCATED
  | _ => none

/-- Enumeration `RD` of DNSPacket.py. -/
inductive RD | NO_RECURSION | RECURSION
deriving DecidableEq, Fintype

/-- Wire value of an `RD`. -/
def RD.val : RD → Nat
  | .NO_RECURSION => 0
  | .RECURSION => 1

/-- Python `RD(value)`. -/
def RD.ofNat? : Nat → Option RD
  | 0 => some .NO_RECURSION
  | 1 => some .RECURSION
  | _ => none

/-- Enumeration `RA` of DNSPacket.py. -/
inductive RA | NO_RECURSION_AVAILABLE | RECURSION_AVAILABLE
deriving DecidableEq, Fintype

/-- Wire value of an `RA`. -/
def RA.val : RA → Nat
  | .NO_RECURSION_AVAILABLE => 0
  | .RECURSION_AVAILABLE => 1

/-- Python `RA(value)`. -/
def RA.ofNat? : Nat → Option RA
  | 0 => some .NO_RECURSION_AVAILABLE
  | 1 => some .RECURSION_AVAILABLE
  | _ => none

/-- Enumeration `Z` of DNSPacket.py (single reserved value). -/
inductive Z | RESERVED
deriving DecidableEq, Fintype

/-- Wire value of a `Z`. -/
def Z.val : Z → Nat
  | .RESERVED => 0

/-- Python `Z(value)`. -/
def Z.ofNat? : Nat → Option Z
  | 0 => some .RESERVED
  | _ => none

/-- Enumeration `AD` of DNSPacket.py. -/
inductive AD | NOT_AUTHENTICATED | AUTHENTICATED
deriving DecidableEq, Fintype

/-- Wire value of an `AD`. -/
def AD.val : AD → Nat
  | .NOT_AUTHENTICATED => 0
  | .AUTHENTICATED => 1

/-- Python `AD(value)`. -/
def AD.ofNat? : Nat → Option AD
  | 0 => some .NOT_AUTHENTICATED
  | 1 => some .AUTHENTICATED
  | _ => none

/-- Enumeration `CD` of DNSPacket.py. -/
inductive CD | NO_CHECK | CHECK
deriving DecidableEq, Fintype

/-- Wire value of a `CD`. -/
def CD.val : CD → Nat
  | .NO_CHECK => 0
  | .CHECK => 1

/-- Python `CD(value)`. -/
def CD.ofNat? : Nat → Option CD
  | 0 => some .NO_CHECK
  | 1 => some .CHECK
  | _ => none

/-- Enumeration `RCODE` of DNSPacket.py. -/
inductive RCODE
  | NO_ERROR | FORMAT_ERROR | SERVER_FAILURE | NAME_ERROR | NOT_IMPLEMENTED
  | REFUSED
deriving DecidableEq, Fintype

/-- Wire value of an `RCODE`. -/
def RCODE.val : RCODE → Nat
  | .NO_ERROR => 0
  | .FORMAT_ERROR => 1
  | .SERVER_FAILURE => 2
  | .NAME_ERROR => 3
  | .NOT_IMPLEMENTED => 4
  | .REFUSED => 5

/-- Python `RCODE(value)`. -/
def RCODE.ofNat? : Nat → Option RCODE
  | 0 => some .NO_ERROR
  | 1 => some .FORMAT_ERROR
  | 2 => some .SERVER_FAILURE
  | 3 => some .NAME_ERROR
  | 4 => some .NOT_IMPLEMENTED
  | 5 => some .REFUSED
  | _ => none

/-- Enumeration `QTYPE` of DNSPacket.py. -/
inductive QTYPE | A | NS | CNAME | SOA | PTR | AAAA
deriving DecidableEq, Fintype

/-- Wire value of a `QTYPE`. -/
def QTYPE.val : QTYPE → Nat
  | .A => 1
  | .NS => 2
  | .CNAME => 5
  | .SOA => 6
  | .PTR => 12
  | .AAAA => 28

/-- Python `QTYPE(value)`. -/
def QTYPE.ofNat? : Nat → Option QTYPE
  | 1 => some .A
  | 2 => some .NS
  | 5 => some .CNAME
  | 6 => some .SOA
  | 12 => some .PTR
  | 28 => some .AAAA
  | _ => none

/-- Enumeration `QCLASS` of DNSPacket.py (only IN). -/
inductive QCLASS | IN
deriving DecidableEq, Fintype

/-- Wire value of a `QCLASS`. -/
def QCLASS.val : QCLASS → Nat
  | .IN => 1

/-- Python `QCLASS(value)`. -/
def QCLASS.ofNat? : Nat → Option QCLASS
  | 1 => some .IN
  | _ => none

/-- Class `SOARdata` of DNSPacket.py. -/
structure SOARdata where
  mname : PyStr
  rname : PyStr
  serial : Nat
  refresh : Nat
  retry : Nat
  expire : Nat
  minimum : Nat
deriving DecidableEq

/-- RDATA payload of a `DNSRecord`.  In Python the `rdata` attribute is
dynamically typed: a `str` for A, AAAA, NS, CNAME and PTR records (and for
everything loaded from the hints file) and a `SOARdata` object for decoded SOA
records. -/
inductive Rdata
  | str (s : PyStr)
  | soa (d : SOARdata)
deriving DecidableEq

/-- Class `DNSQuestion` of DNSPacket.py. -/
structure DNSQuestion where
  qname : PyStr
  qtype : QTYPE
  qclass : QCLASS
deriving DecidableEq

/-- Class `DNSRecord` of DNSPacket.py.  `creation_time` models the
`datetime.datetime.now()` timestamp (an opaque clock value; decoding assigns
0). -/
structure DNSRecord where
  name : PyStr
  qtype : QTYPE
  qclass : QCLASS
  ttl : Nat
  rdata : Rdata
  creation_time : Nat
deriving DecidableEq

/-- `DNSRecord.__eq__`: structural equality on name, type, class, ttl and
rdata; `creation_time` is not compared. -/
def recordEq (a b : DNSRecord) : Bool :=
  a.name = b.name ∧ a.qtype = b.qtype ∧ a.qclass = b.qclass ∧
    a.ttl = b.ttl ∧ a.rdata = b.rdata

/-- Class `DNSHeader` of DNSPacket.py. -/
structure DNSHeader where
  id : Nat
  qr : QR
  opcode : OPCODE
  aa : AA
  tc : TC
  rd : RD
  ra : RA
  z : Z
  ad : AD
  cd : CD
  rcode : RCODE
  qdcount : Nat
  ancount : Nat
  nscount : Nat
  arcount : Nat
deriving DecidableEq

/-- The all-defaults `DNSHeader()` of DNSPacket.py. -/
def defaultHeader : DNSHeader :=
  { id := 0, qr := .QUERY, opcode := .QUERY, aa := .NOT_AUTHORITATIVE,
    tc := .NOT_TRUNCATED, rd := .NO_RECURSION, ra := .NO_RECURSION_AVAILABLE,
    z := .RESERVED, ad := .NOT_AUTHENTICATED, cd := .NO_CHECK,
    rcode := .NO_ERROR, qdcount := 0, ancount := 0, nscount := 0, arcount := 0 }

/-- Class `DNSPacket` of DNSPacket.py: header plus four record vectors. -/
structure DNSPacket where
  header : DNSHeader
  question : List DNSQuestion
  answer_records : List DNSRecord
  authority_records : List DNSRecord
  additional_records : List DNSRecord
deriving DecidableEq

/-- The `DNSPacket.__init__` constructor: stores the four vectors and
overwrites the header count fields with the vector lengths.  (In Python the
count update mutates the header object in place; here the header is a value,
which is observationally the same for the single packet being built.) -/
def mkDNSPacket (h : DNSHeader) (qs : List DNSQuestion)
    (an au ar : List DNSRecord) : DNSPacket :=
  { header := { h with qdcount := qs.length, ancount := an.length,
                       nscount := au.length, arcount := ar.length },
    question := qs, answer_records := an, authority_records := au,
    additional_records := ar }

/-- `DNSPacket.__eq__`: header and question lists by full structural equality,
record lists elementwise by `DNSRecord.__eq__` (which ignores
`creation_time`). -/
def packetEq (a b : DNSPacket) : Bool :=
  a.header = b.header ∧ a.question = b.question ∧
    List.all₂ recordEq a.answer_records b.answer_records ∧
    List.all₂ recordEq a.authority_records b.authority_records ∧
    List.all₂ recordEq a.additional_records b.additional_records

/-- `DNSComponent._nameToBytes`: every dot-separated part becomes a length
byte followed by its bytes.  A canonical name with a trailing dot ends in an
empty part, which contributes the terminating zero byte.  (Python
`len(part).to_bytes(1, "big")` raises `OverflowError` for parts longer than
255 bytes; the round-trip theorems restrict labels to ≤ 63.) -/
def nameToBytes (name : PyStr) : List Nat :=
  (pySplit '.' name).foldl
    (fun acc part => acc ++ (part.length :: part.map Char.toNat)) []

/-- Boolean guard of the decoder loop: `limitBytes == -1 or start_offset <
limitBytes` with `-1` modelled as `none`. -/
def limitOk (limit : Option Nat) (so : Nat) : Bool :=
  match limit with
  | none => true
  | some m => so < m

/-- `DNSComponent._readNameFromBytes`: reads length-prefixed labels at
`offset + so` until a zero byte (or `limit` bytes); the literal byte `0xC0`
is treated as a compression pointer whose target is the single following
byte, read with a fresh recursive call whose consumed count is discarded.
Returns the assembled name and the bytes consumed at the current position.
`fuel` bounds the recursion (Python diverges or hits its recursion limit on
pointer cycles); out-of-range reads are `none` (Python `IndexError`).  Label
bytes are decoded one byte per character (Python decodes UTF-8; the names the
codec round-trips are ASCII, where the two agree). -/
def readNameAux : List Nat → Nat → Option Nat → Nat → Nat → PyStr →
    Option (PyStr × Nat)
  | _, _, _, 0, _, _ => none
  | data, offset, limit, Nat.succ fuel, so, acc =>
    match data[offset + so]? with
    | none => none
    | some b =>
      if b ≠ 0 ∧ limitOk limit so then
        if b = 192 then
          match data[offset + so + 1]? with
          | none => none
          | some ptr =>
            match readNameAux data ptr none fuel 0 [] with
            | none => none
            | some (pn, _) => some (acc ++ pn, so + 2)
        else
          readNameAux data offset limit fuel (so + 1 + b)
            (acc ++ (sliceBytes data (offset + so + 1) (offset + so + 1 + b)).map
              Char.ofNat ++ ['.'])
      else some (acc, so + 1)

/-- Entry point of the name decoder with empty accumulator. -/
def readName (data : List Nat) (offset : Nat) (limit : Option Nat)
    (fuel : Nat) : Option (PyStr × Nat) :=
  readNameAux data offset limit fuel 0 []

/-- The 16-bit flags word of `DNSHeader.toBytes`: bitwise-or of the fields
shifted to QR(15) OPCODE(11) AA(10) TC(9) RD(8) RA(7) Z(6) AD(5) CD(4)
RCODE(0). -/
def flagsWord (h : DNSHeader) : Nat :=
  Nat.lor (Nat.shiftLeft h.qr.val 15)
    (Nat.lor (Nat.shiftLeft h.opcode.val 11)
      (Nat.lor (Nat.shiftLeft h.aa.val 10)
        (Nat.lor (Nat.shiftLeft h.tc.val 9)
          (Nat.lor (Nat.shiftLeft h.rd.val 8)
            (Nat.lor (Nat.shiftLeft h.ra.val 7)
              (Nat.lor (Nat.shiftLeft h.z.val 6)
                (Nat.lor (Nat.shiftLeft h.ad.val 5)
                  (Nat.lor (Nat.shiftLeft h.cd.val 4) h.rcode.val))))))))

/-- `DNSHeader.toBytes`: `struct.pack(">HHHHHH", id, flags, qdcount, ancount,
nscount, arcount)`. -/
def headerToBytes (h : DNSHeader) : List Nat :=
  pack16 h.id ++ pack16 (flagsWord h) ++ pack16 h.qdcount ++ pack16 h.ancount
    ++ pack16 h.nscount ++ pack16 h.arcount

/-- `DNSHeader.fromBytes`: unpacks the six big-endian 16-bit words and then
extracts the flag fields with the masks and shifts written in the source
(including the `AD` mask `0b1000` shifted by 5 and the `CD` mask `0b100`
shifted by 4, which always extract 0). -/
def headerFromBytes (data : List Nat) : Option DNSHeader :=
  if data.length < 12 then none
  else
    match read16 data 0, read16 data 2, read16 data 4, read16 data 6,
        read16 data 8, read16 data 10 with
    | some id, some flags, some qdcount, some ancount, some nscount,
        some arcount =>
      match QR.ofNat? (Nat.shiftRight (Nat.land flags 0b1000000000000000) 15),
          OPCODE.ofNat? (Nat.shiftRight (Nat.land flags 0b0111100000000000) 11),
          AA.ofNat? (Nat.shiftRight (Nat.land flags 0b0000010000000000) 10),
          TC.ofNat? (Nat.shiftRight (Nat.land flags 0b0000001000000000) 9),
          RD.ofNat? (Nat.shiftRight (Nat.land flags 0b0000000100000000) 8),
          RA.ofNat? (Nat.shiftRight (Nat.land flags 0b0000000010000000) 7),
          Z.ofNat? (Nat.shiftRight (Nat.land flags 0b0000000001110000) 6),
          AD.ofNat? (Nat.shiftRight (Nat.land flags 0b0000000000001000) 5),
          CD.ofNat? (Nat.shiftRight (Nat.land flags 0b0000000000000100) 4),
          RCODE.ofNat? (Nat.land flags 0b0000000000001111) with
      | some qr, some opcode, some aa, some tc, some rd, some ra, some z,
          some ad, some cd, some rcode =>
        some { id := id, qr := qr, opcode := opcode, aa := aa, tc := tc,
               rd := rd, ra := ra, z := z, ad := ad, cd := cd, rcode := rcode,
               qdcount := qdcount, ancount := ancount, nscount := nscount,
               arcount := arcount }
      | _, _, _, _, _, _, _, _, _, _ => none
    | _, _, _, _, _, _ => none

/-- `DNSQuestion.toBytes`: encoded qname followed by qtype and qclass. -/
def questionToBytes (q : DNSQuestion) : List Nat :=
  nameToBytes q.qname ++ pack16 q.qtype.val ++ pack16 q.qclass.val

/-- Loop body of `DNSQuestion.fromBytes`: reads `count` questions starting at
`offset` (the caller starts at 12). -/
def questionsGo (data : List Nat) : Nat → Nat → Option (List DNSQuestion × Nat)
  | 0, offset => some ([], offset)
  | Nat.succ count, offset =>
    match readName data offset none (data.length + 1) with
    | none => none
    | some (name, nameLen) =>
      let off1 := offset + nameLen
      match read16 data off1, read16 data (off1 + 2) with
      | some qt, some qc =>
        match QTYPE.ofNat? qt, QCLASS.ofNat? qc with
        | some qtype, some qclass =>
          match questionsGo data count (off1 + 4) with
          | none => none
          | some (qs, off2) =>
            some ({ qname := name, qtype := qtype, qclass := qclass } :: qs,
              off2)
        | _, _ => none
      | _, _ => none

/-- `DNSQuestion.fromBytes`: parses `count` questions starting at byte 12. -/
def questionsFromBytes (data : List Nat) (count : Nat) :
    Option (List DNSQuestion × Nat) :=
  questionsGo data count 12

/-- `SOARdata.toBytes`: the two encoded names followed by the five 32-bit
integers. -/
def soaToBytes (d : SOARdata) : List Nat :=
  nameToBytes d.mname ++ nameToBytes d.rname ++ pack32 d.serial
    ++ pack32 d.refresh ++ pack32 d.retry ++ pack32 d.expire
    ++ pack32 d.minimum

/-- `SOARdata.fromBytes`: reads the two names and five integers; like the
source it returns the ABSOLUTE end offset, not the consumed length. -/
def soaFromBytes (data : List Nat) (offset : Nat) : Option (SOARdata × Nat) :=
  match readName data offset none (data.length + 1) with
  | none => none
  | some (mname, len1) =>
    let off1 := offset + len1
    match readName data off1 none (data.length + 1) with
    | none => none
    | some (rname, len2) =>
      let off2 := off1 + len2
      match read32 data off2, read32 data (off2 + 4), read32 data (off2 + 8),
          read32 data (off2 + 12), read32 data (off2 + 16) with
      | some serial, some refresh, some retry, some expire, some minimum =>
        some ({ mname := mname, rname := rname, serial := serial,
                refresh := refresh, retry := retry, expire := expire,
                minimum := minimum }, off2 + 20)
      | _, _, _, _, _ => none

/-- `DNSRecord.toBytes`: implemented only for NS, CNAME and PTR records (whose
rdata is a domain-name string); everything else raises `NotImplementedError`,
modelled as `none`.  A name-encodable rdata is also required to be a `str`
(a `SOARdata` would raise inside `_nameToBytes`). -/
def recordToBytes (r : DNSRecord) : Option (List Nat) :=
  if r.qtype = .NS ∨ r.qtype = .CNAME ∨ r.qtype = .PTR then
    match r.rdata with
    | .str s =>
      let rdata := nameToBytes s
      some (nameToBytes r.name ++ pack16 r.qtype.val ++ pack16 r.qclass.val
        ++ pack32 r.ttl ++ pack16 rdata.length ++ rdata)
    | .soa _ => none
  else none

/-- Decimal digits of a byte, as produced by Python `str(int)`. -/
def natDec (n : Nat) : PyStr := (Nat.repr n).data

/-- The dotted-quad string assembled by the A branch of
`DNSRecord.fromBytes` from the four bytes at `offset` (built with a trailing
dot that is then sliced off). -/
def dottedQuad (b0 b1 b2 b3 : Nat) : PyStr :=
  natDec b0 ++ ['.'] ++ natDec b1 ++ ['.'] ++ natDec b2 ++ ['.'] ++ natDec b3

/-- Lower-case hex digit. -/
def hexDigit (n : Nat) : Char :=
  (pys "0123456789abcdef")[n]?.getD '?'

/-- Python `bytes.hex()`: two lower-case hex digits per byte. -/
def bytesHex (bs : List Nat) : PyStr :=
  bs.flatMap (fun b => [hexDigit (b / 16), hexDigit (b % 16)])

/-- The AAAA branch loop of `DNSRecord.fromBytes`: for `i` in
`range(0, rdlen, 2)` append `data[offset+i : offset+i+2].hex() + ":"`. -/
def aaaaHexGo (data : List Nat) (offset rdlen : Nat) : Nat → Nat → PyStr
  | 0, _ => []
  | Nat.succ fuel, i =>
    if i < rdlen then
      bytesHex (sliceBytes data (offset + i) (offset + i + 2)) ++ [':']
        ++ aaaaHexGo data offset rdlen fuel (i + 2)
    else []

/-- The colon-joined hex string built by the AAAA branch, with the final
colon removed (`rdata[:-1]`). -/
def aaaaHexStr (data : List Nat) (offset rdlen : Nat) : PyStr :=
  (aaaaHexGo data offset rdlen (rdlen + 1) 0).dropLast

/-- Hex digit test (Python `_HEX_DIGITS`). -/
def isHexDigitCh (c : Char) : Bool :=
  ('0' ≤ c ∧ c ≤ '9') ∨ ('a' ≤ c ∧ c ≤ 'f') ∨ ('A' ≤ c ∧ c ≤ 'F')

/-- Numeric value of a hex digit. -/
def hexVal (c : Char) : Nat :=
  if '0' ≤ c ∧ c ≤ '9' then c.toNat - 48
  else if 'a' ≤ c ∧ c ≤ 'f' then c.toNat - 87
  else if 'A' ≤ c ∧ c ≤ 'F' then c.toNat - 55
  else 0

/-- Models `ipaddress._parse_hextet`: one to four hex digits. -/
def parseHextet (p : PyStr) : Option Nat :=
  if p ≠ [] ∧ p.length ≤ 4 ∧ p.all isHexDigitCh then
    some (p.foldl (fun a c => a * 16 + hexVal c) 0)
  else none

/-- Models the Python standard library parser
`ipaddress.IPv6Address._ip_int_from_string`, returning the eight 16-bit
groups (`none` models `AddressValueError`).  The embedded-dotted-quad suffix
form (`"::1.2.3.4"`) is outside the modelled fragment; no claim depends on
it. -/
def ipv6Groups (s : PyStr) : Option (List Nat) :=
  if s = [] then none
  else
    let parts := pySplit ':' s
    let n := parts.length
    if n < 3 ∨ 9 < n then none
    else
      let inner := (parts.drop 1).dropLast
      let empties := inner.countP (· = [])
      if 2 ≤ empties then none
      else if empties = 1 then
        let skip := 1 + inner.findIdx (· = [])
        let headEmpty := parts.head? = some []
        let lastEmpty := parts.getLast? = some []
        if headEmpty ∧ skip ≠ 1 then none
        else if lastEmpty ∧ skip ≠ n - 2 then none
        else
          let partsHi := if headEmpty then 0 else skip
          let partsLo := if lastEmpty then 0 else n - skip - 1
          if 8 < partsHi + partsLo then none
          else
            let skipped := 8 - (partsHi + partsLo)
            match (parts.take partsHi).mapM parseHextet,
                (parts.drop (n - partsLo)).mapM parseHextet with
            | some hi, some lo => some (hi ++ List.replicate skipped 0 ++ lo)
            | _, _ => none
      else
        if n ≠ 8 then none
        else parts.mapM parseHextet

/-- Lower-case hex rendering of a group without leading zeros (`"%x"`). -/
def natHexAux : Nat → Nat → PyStr
  | 0, _ => []
  | Nat.succ fuel, n =>
    if n = 0 then [] else natHexAux fuel (n / 16) ++ [hexDigit (n % 16)]

/-- Python `"%x" % n` (lower case, no leading zeros). -/
def natHex (n : Nat) : PyStr := if n = 0 then ['0'] else natHexAux (n + 1) n

/-- Python `"%04x" % n`: four-digit zero-padded lower-case hex, as used by
`IPv6Address.exploded`. -/
def natHex4 (n : Nat) : PyStr :=
  [hexDigit (n / 4096 % 16), hexDigit (n / 256 % 16), hexDigit (n / 16 % 16),
   hexDigit (n % 16)]

/-- The longest-zero-run scan of `ipaddress._compress_hextets` (first maximal
run wins); returns (best start, best length). -/
def zeroRunGo : List Nat → Nat → Nat → Nat → Nat → Nat → Nat × Nat
  | [], _, _, _, bs, bl => (bs, bl)
  | g :: rest, i, cs, cl, bs, bl =>
    if g = 0 then
      let cs1 := if cl = 0 then i else cs
      let cl1 := cl + 1
      if bl < cl1 then zeroRunGo rest (i + 1) cs1 cl1 cs1 cl1
      else zeroRunGo rest (i + 1) cs1 cl1 bs bl
    else zeroRunGo rest (i + 1) 0 0 bs bl

/-- Models `IPv6Address.compressed` on eight groups: collapse the first
longest run of at least two zero groups to an empty part and join with
colons. -/
def ipv6CompressedStr (groups : List Nat) : PyStr :=
  let hextets := groups.map natHex
  let (bs, bl) := zeroRunGo groups 0 0 0 0 0
  if 2 ≤ bl then
    let be := bs + bl
    let h1 := hextets ++ (if be = groups.length then [[]] else [])
    let h2 := h1.take bs ++ [[]] ++ h1.drop be
    let h3 := (if bs = 0 then [[]] else []) ++ h2
    pyJoin [':'] h3
  else pyJoin [':'] hextets

/-- Models `IPv6Address.exploded` on eight groups: colon-joined four-digit
hex. -/
def ipv6ExplodedStr (groups : List Nat) : PyStr :=
  pyJoin [':'] (groups.map natHex4)

/-- Loop body of `DNSRecord.fromBytes`: reads `count` records starting at
`offset`.  The NS/CNAME/PTR branch reads a (possibly compressed) name bounded
by RDLENGTH; the A branch renders a dotted quad and advances by RDLENGTH; the
AAAA branch renders colon-joined hex and feeds it through the `ipaddress`
parser and compressor; the SOA branch — exactly as in the source — treats the
ABSOLUTE end offset returned by `SOARdata.fromBytes` as a length and adds it
to the current offset.  An unknown type raises in Python (unbound local or
`ValueError` from `QTYPE(...)`), modelled as `none`. -/
def recordsGo (data : List Nat) : Nat → Nat → Option (List DNSRecord × Nat)
  | 0, offset => some ([], offset)
  | Nat.succ count, offset =>
    match readName data offset none (data.length + 1) with
    | none => none
    | some (name, nameLen) =>
      let off1 := offset + nameLen
      match read16 data off1, read16 data (off1 + 2), read32 data (off1 + 4),
          read16 data (off1 + 8) with
      | some qt, some qc, some ttl, some rdlen =>
        let off2 := off1 + 10
        let step : Rdata → Nat → Option (List DNSRecord × Nat) :=
          fun rdata len =>
            match QTYPE.ofNat? qt, QCLASS.ofNat? qc with
            | some qtype, some qclass =>
              match recordsGo data count (off2 + len) with
              | none => none
              | some (rs, off3) =>
                some ({ name := name, qtype := qtype, qclass := qclass,
                        ttl := ttl, rdata := rdata, creation_time := 0 } :: rs,
                  off3)
            | _, _ => none
        if qt = 2 ∨ qt = 5 ∨ qt = 12 then
          match readName data off2 (some rdlen) (data.length + 1) with
          | none => none
          | some (rd, rdLen) => step (.str rd) rdLen
        else if qt = 1 then
          match data[off2]?, data[off2 + 1]?, data[off2 + 2]?,
              data[off2 + 3]? with
          | some b0, some b1, some b2, some b3 =>
            step (.str (dottedQuad b0 b1 b2 b3)) rdlen
          | _, _, _, _ => none
        else if qt = 28 then
          match ipv6Groups (aaaaHexStr data off2 rdlen) with
          | none => none
          | some gs => step (.str (ipv6CompressedStr gs)) rdlen
        else if qt = 6 then
          match soaFromBytes data off2 with
          | none => none
          | some (d, endAbs) => step (.soa d) endAbs
        else none
      | _, _, _, _ => none

/-- `DNSPacket.toBytes`: header bytes, then each question, then each record
of the three sections (fails if any record is of an unencodable type). -/
def packetToBytes (p : DNSPacket) : Option (List Nat) :=
  match (p.answer_records.mapM recordToBytes),
      (p.authority_records.mapM recordToBytes),
      (p.additional_records.mapM recordToBytes) with
  | some an, some au, some ar =>
    some (headerToBytes p.header ++ (p.question.map questionToBytes).flatten
      ++ an.flatten ++ au.flatten ++ ar.flatten)
  | _, _, _ => none

/-- `DNSPacket.fromBytes`: header, then the four sections threaded through a
single offset, finally re-assembled through the `DNSPacket` constructor. -/
def packetFromBytes (data : List Nat) : Option DNSPacket :=
  match headerFromBytes data with
  | none => none
  | some header =>
    match questionsFromBytes data header.qdcount with
    | none => none
    | some (qs, off1) =>
      match recordsGo data header.ancount off1 with
      | none => none
      | some (an, off2) =>
        match recordsGo data header.nscount off2 with
        | none => none
        | some (au, off3) =>
          match recordsGo data header.arcount off3 with
          | none => none
          | some (ar, _) => some (mkDNSPacket header qs an au ar)

/-- `DNSResolver.__sanitize_domain`: lower-case, strip all leading/trailing
dots, append one trailing dot. -/
def sanitize (domain : PyStr) : PyStr := stripDots (pyLower domain) ++ ['.']

/-- The per-name part of the cache: Python dict from `QTYPE` to record list,
as an insertion-ordered association list. -/
abbrev TypeMap := List (QTYPE × List DNSRecord)

/-- `DNSResolver.__cached_records`: dict from sanitized name to `TypeMap`. -/
abbrev Cache := List (PyStr × TypeMap)

/-- Inner insertion of `__cache_records`: ensure the type bucket exists and
append the record unless a `DNSRecord.__eq__`-equal one is present. -/
def typeInsert (r : DNSRecord) : TypeMap → TypeMap
  | [] => [(r.qtype, [r])]
  | (q, l) :: rest =>
    if q = r.qtype then
      (q, if l.any (fun x => recordEq r x) then l else l ++ [r]) :: rest
    else (q, l) :: typeInsert r rest

/-- One iteration of `DNSResolver.__cache_records`: key by the sanitized
record name, then insert into the type bucket. -/
def cacheInsert (r : DNSRecord) : Cache → Cache
  | [] => [(sanitize r.name, typeInsert r [])]
  | (n, tm) :: rest =>
    if n = sanitize r.name then (n, typeInsert r tm) :: rest
    else (n, tm) :: cacheInsert r rest

/-- `DNSResolver.__cache_records`: insert every record of the list in
order. -/
def cacheRecords (records : List DNSRecord) (c : Cache) : Cache :=
  records.foldl (fun acc r => cacheInsert r acc) c

/-- Dict lookup on the outer cache map. -/
def cacheFindName (c : Cache) (n : PyStr) : Option TypeMap :=
  match c.find? (fun e => e.fst = n) with
  | some e => some e.snd
  | none => none

/-- Dict lookup on a type bucket. -/
def typeFind (tm : TypeMap) (q : QTYPE) : Option (List DNSRecord) :=
  match tm.find? (fun e => e.fst = q) with
  | some e => some e.snd
  | none => none

/-- `DNSResolver.__check_cache`: sanitize the name, then the two nested dict
lookups; `None` when either key is missing. -/
def checkCache (c : Cache) (fqdn : PyStr) (qtype : QTYPE) :
    Option (List DNSRecord) :=
  match cacheFindName c (sanitize fqdn) with
  | some tm => typeFind tm qtype
  | none => none

/-- Python truthiness of an optional list (`if cache:`): present and
non-empty. -/
def truthyL {α : Type} (o : Option (List α)) : Bool :=
  match o with
  | some (_ :: _) => true
  | _ => false

/-- Loop of `DNSResolver.__check_nearest_ns` over `range(len(split))`: the
probe for index `i` is `".".join(split[i:])`, here expressed by recursing on
the suffixes of the split list.  A truthy (non-`None`, non-empty) NS lookup
is returned; the final empty-list suffix is never probed, matching the
`range` bound. -/
def nearestAux (c : Cache) : List PyStr → Option (List DNSRecord)
  | [] => none
  | p :: rest =>
    let hit := checkCache c (pyJoin ['.'] (p :: rest)) .NS
    if truthyL hit then hit else nearestAux c rest

/-- `DNSResolver.__check_nearest_ns`: sanitize, split on dots, and probe
progressively shorter suffixes for a cached NS set. -/
def nearestNS (c : Cache) (fqdn : PyStr) : Option (List DNSRecord) :=
  nearestAux c (pySplit '.' (sanitize fqdn))

/-- State of a `DNSResolver` object: the IPv4 root-server records
(`__root_srv[IPVersion.IPV4]`, read-only after construction) and the record
cache. -/
structure ResolverState where
  rootSrv : List DNSRecord
  cache : Cache
deriving DecidableEq

/-- The network boundary: `send_query(fqdn, qtype, servers)` abstracted as an
oracle from the query parameters to an optional response packet (`none`
models every-server-timed-out). -/
abbrev Net := PyStr → QTYPE → List Rdata → Option DNSPacket

/-- Result alternatives of an engine call: `diverge` is model fuel
exhaustion (the Python loop/recursion not terminating within the budget),
`exn` an uncaught Python exception, `ret` a normal return. -/
inductive RQRes
  | diverge
  | exn (e : PyStr)
  | ret (p : Option DNSPacket)
deriving DecidableEq

/-- Result of an engine call: outcome, post state, and two ghost
instrumentation fields — the number of `send_query` invocations and the
largest `recursion_count` of any `recursive_query` frame entered (including
the current one).  The ghosts never influence control flow. -/
structure RQOut where
  res : RQRes
  st : ResolverState
  netCalls : Nat
  maxCount : Nat
deriving DecidableEq

/-- Message of the `AttributeError` exceptions raised by the engine. -/
def attrErr : PyStr := pys "AttributeError"

/-- Glue pass of `recursive_query` (lines 129-132): for each NS record of the
nearest NS set look up cached A records of its rdata and collect their rdata
strings.  An NS record whose rdata is a `SOARdata` raises inside
`__sanitize_domain` (`AttributeError`). -/
def gluePass (c : Cache) : List DNSRecord → Except PyStr (List Rdata)
  | [] => .ok []
  | ns :: rest =>
    match ns.rdata with
    | .soa _ => .error attrErr
    | .str s =>
      let hit := checkCache c s .A
      let add := if truthyL hit then (hit.getD []).map (·.rdata) else []
      match gluePass c rest with
      | .error e => .error e
      | .ok more => .ok (add ++ more)

/-- Referral scan of the response loop (lines 154-161): NS records contribute
their rdata, SOA records the `mname` of their rdata (raising
`AttributeError` if a SOA record carries a plain string), others are
skipped. -/
def buildNsList : List DNSRecord → Except PyStr (List Rdata)
  | [] => .ok []
  | r :: rest =>
    match r.qtype, r.rdata with
    | .NS, rd =>
      match buildNsList rest with
      | .error e => .error e
      | .ok more => .ok (rd :: more)
    | .SOA, .soa d =>
      match buildNsList rest with
      | .error e => .error e
      | .ok more => .ok (.str d.mname :: more)
    | .SOA, .str _ => .error attrErr
    | _, _ =>
      match buildNsList rest with
      | .error e => .error e
      | .ok more => .ok more

/-- Cache pass over the ns-name list (lines 164-167): collect the rdata of
cached A records for each candidate name; a `SOARdata` candidate raises
inside `__sanitize_domain`. -/
def serversFromNsList (c : Cache) : List Rdata → Except PyStr (List Rdata)
  | [] => .ok []
  | .soa _ :: _ => .error attrErr
  | .str s :: rest =>
    let hit := checkCache c s .A
    let add := if truthyL hit then (hit.getD []).map (·.rdata) else []
    match serversFromNsList c rest with
    | .error e => .error e
    | .ok more => .ok (add ++ more)

/-- Outcome of the nested-resolution fallback loop (see `glueFallback`). -/
inductive FBRes
  | diverge
  | exn (e : PyStr)
  | ok (servers : List Rdata)
deriving DecidableEq

/-- Result record of the fallback loop, with the same ghost fields as
`RQOut`. -/
structure FBOut where
  res : FBRes
  st : ResolverState
  netCalls : Nat
  maxCount : Nat
deriving DecidableEq

/-- One fuel level of the resolver engine.  The three components are the
bodies of `recursive_query` (DNSResolver.py lines 111-177), of its
`while servers:` loop (lines 142-177), and of the nested-resolution fallback
loop (lines 170-176); each consumes one unit of fuel per call/iteration and
recurses through the previous fuel level, so the whole engine is a single
structural recursion on fuel (fuel exhaustion modelling Python divergence).
See `recursiveQuery`, `queryLoop` and `glueFallback` for the per-function
documentation. -/
def engineGo (net : Net) : Nat →
    (ResolverState → PyStr → QTYPE → Nat → Nat → RQOut) ×
      (ResolverState → PyStr → QTYPE → Nat → Nat → List Rdata → RQOut) ×
      (ResolverState → List Rdata → Nat → Nat → FBOut)
  | 0 =>
    (fun st _ _ _ count => ⟨.diverge, st, 0, count⟩,
     fun st _ _ _ count _ => ⟨.diverge, st, 0, count⟩,
     fun st _ _ count => ⟨.diverge, st, 0, count⟩)
  | Nat.succ fuel =>
    let rq := (engineGo net fuel).1
    let ql := (engineGo net fuel).2.1
    let fb := (engineGo net fuel).2.2
    (fun st fqdn0 qtype limit count =>
      if limit ≤ count then ⟨.ret none, st, 0, count⟩
      else
        let fqdn := sanitize fqdn0
        let cacheHit := checkCache st.cache fqdn qtype
        if truthyL cacheHit then
          ⟨.ret (some (mkDNSPacket defaultHeader [] (cacheHit.getD []) [] [])),
            st, 0, count⟩
        else
          let nearest := nearestNS st.cache fqdn
          if ¬ truthyL nearest then
            ql st fqdn qtype limit count (st.rootSrv.map (·.rdata))
          else
            match gluePass st.cache (nearest.getD []) with
            | .error e => ⟨.exn e, st, 0, count⟩
            | .ok servers =>
              if servers = [] then
                ⟨.exn attrErr, st, 0, max count (count + 1)⟩
              else ql st fqdn qtype limit count servers,
     fun st fqdn qtype limit count servers =>
      if servers = [] then ⟨.ret none, st, 0, count⟩
      else
        match net fqdn qtype servers with
        | none => ⟨.ret none, st, 1, count⟩
        | some resp =>
          if resp.header.rcode ≠ .NO_ERROR then ⟨.ret none, st, 1, count⟩
          else
            let st1 : ResolverState :=
              { st with cache := (cacheRecords resp.additional_records
                  (cacheRecords resp.authority_records
                    (cacheRecords resp.answer_records st.cache))) }
            if 0 < resp.header.ancount then ⟨.ret (some resp), st1, 1, count⟩
            else
              match buildNsList
                  (resp.authority_records ++ resp.additional_records) with
              | .error e => ⟨.exn e, st1, 1, count⟩
              | .ok nsList =>
                if nsList = [] then ⟨.ret none, st1, 1, count⟩
                else
                  match serversFromNsList st1.cache nsList with
                  | .error e => ⟨.exn e, st1, 1, count⟩
                  | .ok servers2 =>
                    if servers2 ≠ [] then
                      let out := ql st1 fqdn qtype limit count servers2
                      ⟨out.res, out.st, out.netCalls + 1,
                        max count out.maxCount⟩
                    else
                      let fbOut := fb st1 nsList limit count
                      match fbOut.res with
                      | .diverge => ⟨.diverge, fbOut.st, fbOut.netCalls + 1,
                          max count fbOut.maxCount⟩
                      | .exn e => ⟨.exn e, fbOut.st, fbOut.netCalls + 1,
                          max count fbOut.maxCount⟩
                      | .ok servers3 =>
                        let out := ql fbOut.st fqdn qtype limit count servers3
                        ⟨out.res, out.st, fbOut.netCalls + out.netCalls + 1,
                          max fbOut.maxCount (max count out.maxCount)⟩,
     fun st lst limit count =>
      match lst with
      | [] => ⟨.ok [], st, 0, count⟩
      | .soa _ :: _ => ⟨.exn attrErr, st, 0, max count (count + 1)⟩
      | .str s :: rest =>
        let out := rq st s .A limit (count + 1)
        match out.res with
        | .diverge => ⟨.diverge, out.st, out.netCalls, max count out.maxCount⟩
        | .exn e => ⟨.exn e, out.st, out.netCalls, max count out.maxCount⟩
        | .ret none =>
          ⟨.exn attrErr, out.st, out.netCalls, max count out.maxCount⟩
        | .ret (some pkt) =>
          if pkt.answer_records ≠ [] then
            ⟨.ok (pkt.answer_records.map (·.rdata)), out.st, out.netCalls,
              max count out.maxCount⟩
          else
            let out2 := fb out.st rest limit count
            ⟨out2.res, out2.st, out.netCalls + out2.netCalls,
              max out.maxCount out2.maxCount⟩)

/-- `DNSResolver.recursive_query` (DNSResolver.py lines 111-177), as the
first engine component: recursion-limit guard, sanitization, cache fast
path, nearest-NS seeding (the glueless pre-loop fallback of lines 134-140
passes the NS record object itself to the nested call, whose frame — entered
with `recursion_count + 1` — unavoidably raises `AttributeError`), then the
referral loop. -/
def recursiveQuery (net : Net) (fuel : Nat) (st : ResolverState)
    (fqdn0 : PyStr) (qtype : QTYPE) (limit count : Nat) : RQOut :=
  (engineGo net fuel).1 st fqdn0 qtype limit count

/-- The `while servers:` loop of `recursive_query` (lines 142-177): send the
query; on no response or a non-`NO_ERROR` rcode return `None`; cache the
three sections; return the response if it has answers; otherwise follow the
referral (cached A records first, then the nested-resolution fallback). -/
def queryLoop (net : Net) (fuel : Nat) (st : ResolverState) (fqdn : PyStr)
    (qtype : QTYPE) (limit count : Nat) (servers : List Rdata) : RQOut :=
  (engineGo net fuel).2.1 st fqdn qtype limit count servers

/-- The nested-resolution fallback (lines 170-176): for each candidate name
invoke `recursive_query(name, A, limit, count + 1)` and take
`.answer_records` of the result — an `AttributeError` when that result is
`None` — collecting the first candidate that yields any answers.  A
`SOARdata` candidate makes the nested frame raise (exactly as in the
pre-loop fallback). -/
def glueFallback (net : Net) (fuel : Nat) (st : ResolverState)
    (lst : List Rdata) (limit count : Nat) : FBOut :=
  (engineGo net fuel).2.2 st lst limit count

/-- `DNSResolver.reverse_lookup_v4`: reverse the dot-separated pieces of the
literal (no validation of any kind), append `.in-addr.arpa`, and resolve as a
PTR query with the default limits. -/
def reverseLookupV4 (net : Net) (fuel : Nat) (st : ResolverState)
    (ipv4 : PyStr) : RQOut :=
  recursiveQuery net fuel st
    (pyJoin ['.'] (pySplit '.' ipv4).reverse ++ pys ".in-addr.arpa") .PTR 10 0

/-- Message of the `AddressValueError` raised by `ipaddress.IPv6Address`. -/
def addrErr : PyStr := pys "AddressValueError"

/-- `DNSResolver.reverse_lookup_v6`: `ipaddress.IPv6Address(ipv6).exploded`
(raising `AddressValueError` on an invalid literal — the exception is not
caught), then colons removed, nibbles reversed and dot-joined, `.ip6.arpa`
appended, resolved as a PTR query. -/
def reverseLookupV6 (net : Net) (fuel : Nat) (st : ResolverState)
    (ipv6 : PyStr) : RQOut :=
  match ipv6Groups ipv6 with
  | none => ⟨.exn addrErr, st, 0, 0⟩
  | some gs =>
    let decompressed := ipv6ExplodedStr gs
    let nibbles := decompressed.filter (· ≠ ':')
    recursiveQuery net fuel st
      (pyJoin ['.'] (nibbles.reverse.map (fun c => [c])) ++ pys ".ip6.arpa")
      .PTR 10 0

/-- A label the wire codec round-trips: non-empty (an empty interior label
would embed a stray terminator), at most 63 bytes (64..255 would still encode
but 192 would decode as a pointer; DNS labels are ≤ 63), and ASCII (Python
encodes labels as UTF-8 and `len` counts code points, so only ASCII labels
encode one byte per character). -/
def wfLabel (l : PyStr) : Bool :=
  l ≠ [] ∧ l.length ≤ 63 ∧ l.all (fun c => c.toNat < 128)

/-- A canonical encodable name: ends in a dot (its dot-split ends with an
empty part) and all actual labels are well-formed. -/
def wfName (s : PyStr) : Bool :=
  (pySplit '.' s).getLast? = some [] ∧ (pySplit '.' s).dropLast.all wfLabel

/-- Well-formedness of a question for the packet round trip. -/
def wfQuestion (q : DNSQuestion) : Bool := wfName q.qname

/-- Well-formedness of a record for the packet round trip: an encodable type
(NS, CNAME or PTR — `DNSRecord.toBytes` raises on everything else), a
canonical name, a 32-bit ttl, and a canonical domain-name rdata whose
encoding fits the 16-bit RDLENGTH field. -/
def wfRdataStr : Rdata → Bool
  | .str s => wfName s ∧ (nameToBytes s).length < 65536
  | .soa _ => false

/-- Well-formedness of one record, continued (see `wfRdataStr`). -/
def wfRecord (r : DNSRecord) : Bool :=
  (r.qtype = .NS ∨ r.qtype = .CNAME ∨ r.qtype = .PTR) ∧ wfName r.name ∧
    r.ttl < 4294967296 ∧ wfRdataStr r.rdata

/-- Well-formedness of a packet for the round trip: the constructor
invariant (count fields equal section lengths), 16-bit id and counts, the
`ad`/`cd` flags at their zero defaults (the only values the header codec
round-trips), and well-formed questions and records. -/
def wfPacket (p : DNSPacket) : Bool :=
  p.header.id < 65536 ∧ p.header.ad = .NOT_AUTHENTICATED ∧
    p.header.cd = .NO_CHECK ∧
    p.header.qdcount = p.question.length ∧
    p.header.ancount = p.answer_records.length ∧
    p.header.nscount = p.authority_records.length ∧
    p.header.arcount = p.additional_records.length ∧
    p.question.length < 65536 ∧ p.answer_records.length < 65536 ∧
    p.authority_records.length < 65536 ∧
    p.additional_records.length < 65536 ∧
    p.question.all wfQuestion ∧ p.answer_records.all wfRecord ∧
    p.authority_records.all wfRecord ∧ p.additional_records.all wfRecord

/-- The probe strings of `__check_nearest_ns` expressed on suffixes: the
dot-join of every non-empty tail of the dot-split of the (already sanitized)
name, longest first. -/
def suffixProbes (s : PyStr) : List PyStr :=
  ((pySplit '.' s).tails.dropLast).map (pyJoin ['.'])

/-- Specification-side reading of `__check_nearest_ns`: the first truthy NS
lookup along a probe list. -/
def firstTruthyNS (c : Cache) (probes : List PyStr) :
    Option (List DNSRecord) :=
  probes.findSome? (fun d =>
    let hit := checkCache c d .NS
    if truthyL hit then hit else none)

/-- The label-run scan at one buffer position: walks the length bytes from
`offset + so` without following pointers and reports the terminator position
together with whether the terminator is a compression pointer (byte 192)
rather than a zero byte. -/
def labelRun (data : List Nat) (offset : Nat) : Nat → Nat →
    Option (Nat × Bool)
  | 0, _ => none
  | Nat.succ fuel, so =>
    match data[offset + so]? with
    | none => none
    | some b =>
      if b = 0 then some (so, false)
      else if b = 192 then some (so, true)
      else labelRun data offset fuel (so + 1 + b)

/-- Example NS record cached under `a.`. -/
def nsRecA : DNSRecord :=
  { name := pys "a.", qtype := .NS, qclass := .IN, ttl := 3600,
    rdata := .str (pys "ns.a."), creation_time := 0 }

/-- Example NS record cached under `b.a.`. -/
def nsRecBA : DNSRecord :=
  { name := pys "b.a.", qtype := .NS, qclass := .IN, ttl := 3600,
    rdata := .str (pys "ns.b.a."), creation_time := 0 }

/-- Cache holding NS sets for `a.` and `b.a.` only. -/
def cacheAB : Cache :=
  [(pys "a.", [(QTYPE.NS, [nsRecA])]), (pys "b.a.", [(QTYPE.NS, [nsRecBA])])]

/-- Example A record for `example.com.`. -/
def aRecExample : DNSRecord :=
  { name := pys "example.com.", qtype := .A, qclass := .IN, ttl := 86400,
    rdata := .str (pys "93.184.216.34"), creation_time := 0 }

/-- Example root-server A record. -/
def rootARec : DNSRecord :=
  { name := pys "a.root-servers.net.", qtype := .A, qclass := .IN,
    ttl := 3600000, rdata := .str (pys "198.41.0.4"), creation_time := 0 }

/-- Resolver state with one root server and an empty cache. -/
def stRootOnly : ResolverState := { rootSrv := [rootARec], cache := [] }

/-- Resolver state whose cache answers `example.com. A` directly. -/
def stCachedA : ResolverState :=
  { rootSrv := [], cache := [(pys "example.com.", [(QTYPE.A, [aRecExample])])] }

/-- A NAME_ERROR response packet. -/
def respNX : DNSPacket :=
  mkDNSPacket { defaultHeader with qr := .RESPONSE, rcode := .NAME_ERROR }
    [] [] [] []

/-- Oracle that always answers with the NAME_ERROR response. -/
def netNX : Net := fun _ _ _ => some respNX

/-- Oracle on which every server times out. -/
def netNone : Net := fun _ _ _ => none

/-- A record cached under the root name `.` (what an empty query name
sanitizes to). -/
def rootDotARec : DNSRecord :=
  { name := pys ".", qtype := .A, qclass := .IN, ttl := 60,
    rdata := .str (pys "203.0.113.9"), creation_time := 0 }

/-- Resolver state whose cache answers the root name `.` with an A record. -/
def stDotCached : ResolverState :=
  { rootSrv := [], cache := [(pys ".", [(QTYPE.A, [rootDotARec])])] }

/-- PTR record under the name `reverse_lookup_v4` builds from the invalid
literal `not.an.ip`. -/
def ptrRecBad : DNSRecord :=
  { name := pys "ip.an.not.in-addr.arpa.", qtype := .PTR, qclass := .IN,
    ttl := 60, rdata := .str (pys "host.example."), creation_time := 0 }

/-- Resolver state whose cache answers that PTR name. -/
def stPtrCached : ResolverState :=
  { rootSrv := [],
    cache := [(pys "ip.an.not.in-addr.arpa.", [(QTYPE.PTR, [ptrRecBad])])] }

/-- Example question for the packet round-trip witness. -/
def q0 : DNSQuestion :=
  { qname := pys "example.com.", qtype := .A, qclass := .IN }

/-- Example NS record for the packet round-trip witness (non-zero
`creation_time`, which the round trip ignores). -/
def nsRec0 : DNSRecord :=
  { name := pys "example.com.", qtype := .NS, qclass := .IN, ttl := 3600,
    rdata := .str (pys "ns1.example.net."), creation_time := 7 }

/-- Round-trippable example packet. -/
def packet0 : DNSPacket :=
  mkDNSPacket { defaultHeader with id := 4660 } [q0] [nsRec0] [] []

/-- Packet holding an A record, which `DNSRecord.toBytes` cannot encode. -/
def packetWithA : DNSPacket := mkDNSPacket defaultHeader [] [aRecExample] [] []

/-- Header with the `ad` flag set, exhibiting the unpack bug. -/
def headerAD : DNSHeader := { defaultHeader with ad := .AUTHENTICATED }

/-- Name-decoder example buffer: the name `a.` encoded at offset 0, and at
offset 3 the label `foo` followed by a compression pointer to offset 0. -/
def nameBuf : List Nat := [1, 97, 0, 3, 102, 111, 111, 192, 0]

/-- Copy of `nsRecA` with a different creation time (structurally equal for
`DNSRecord.__eq__`). -/
def nsRecATime5 : DNSRecord := { nsRecA with creation_time := 5 }

/-- Header of the spec scenario: id 0x1234, recursion desired, one
question. -/
def headerScenario : DNSHeader :=
  { defaultHeader with id := 4660, rd := .RECURSION, qdcount := 1 }

/-- Wire form of one label: length byte followed by the label bytes. -/
def encLabel (p : PyStr) : List Nat := p.length :: p.map Char.toNat

/-- Wire form of a label sequence with the zero terminator; for a canonical
name this equals `nameToBytes` (the empty part after the trailing dot
contributes the terminator). -/
def encLabels (labels : List PyStr) : List Nat :=
  labels.flatMap encLabel ++ [0]

/-- The decoder's assembly of a label sequence: each label followed by a
dot. -/
def joinLabels (labels : List PyStr) : PyStr :=
  labels.flatMap (fun l => l ++ ['.'])

/-- String payload of an `Rdata` (empty for the SOA variant). -/
def rdStr : Rdata → PyStr
  | .str s => s
  | .soa _ => []

/-- The byte encoding `DNSRecord.toBytes` produces for an NS/CNAME/PTR
record, written right-nested for the parsing lemmas. -/
def recEnc (r : DNSRecord) : List Nat :=
  nameToBytes r.name ++ (pack16 r.qtype.val ++ (pack16 r.qclass.val ++
    (pack32 r.ttl ++ (pack16 (nameToBytes (rdStr r.rdata)).length ++
      nameToBytes (rdStr r.rdata)))))

/-- A record with its creation time zeroed — exactly what decoding an
encoded record yields. -/
def decTime0 (r : DNSRecord) : DNSRecord := { r with creation_time := 0 }

/-! ### Lemmas about sanitization (claim C4) -/

theorem toNat_ofNat_lt (n : Nat) (h : n < 55296) : (Char.ofNat n).toNat = n := by
  unfold Char.ofNat
  rw [dif_pos (Or.inl h)]
  rfl

theorem charLe_iff (a b : Char) : a ≤ b ↔ a.toNat ≤ b.toNat := Iff.rfl

theorem pyLowerChar_idem (c : Char) :
    pyLowerChar (pyLowerChar c) = pyLowerChar c := by
  unfold pyLowerChar
  by_cases h : 'A' ≤ c ∧ c ≤ 'Z'
  · rw [if_pos h]
    have hc : c.toNat ≤ 90 := (charLe_iff c 'Z').mp h.2
    have ht : (Char.ofNat (c.toNat + 32)).toNat = c.toNat + 32 :=
      toNat_ofNat_lt _ (by omega)
    rw [if_neg]
    intro hcon
    have hz : ('Z' : Char).toNat = 90 := rfl
    have hle := (charLe_iff _ _).mp hcon.2
    rw [ht, hz] at hle
    have h65 : 65 ≤ c.toNat := (charLe_iff 'A' c).mp h.1
    omega
  · rw [if_neg h, if_neg h]

theorem stripDots_eq (s : PyStr) :
    stripDots s = List.rdropWhile (· = '.') (s.dropWhile (· = '.')) := rfl

theorem stripDots_subset (s : PyStr) : stripDots s ⊆ s := by
  rw [stripDots_eq]
  exact fun a ha =>
    (List.dropWhile_suffix (l := s) (· = '.')).subset
      ((List.rdropWhile_prefix _ _).subset ha)

theorem dropWhile_stripDots (u : PyStr) :
    (stripDots u).dropWhile (· = '.') = stripDots u := by
  rw [stripDots_eq]
  set z := u.dropWhile (· = '.') with hz
  have hzz : z.dropWhile (· = '.') = z := List.dropWhile_idempotent _ _
  rcases hy : List.rdropWhile (· = '.') z with _ | ⟨a, t⟩
  · rfl
  · obtain ⟨r, hr⟩ := (List.rdropWhile_prefix (· = '.') z)
    rw [hy] at hr
    have ha : ¬ (a = '.') := by
      rcases hzc : z with _ | ⟨b, tb⟩
      · rw [hzc] at hr; simp at hr
      · have hb : ¬ (b = '.') := by
          intro hbdot
          rw [hzc, List.dropWhile_cons] at hzz
          rw [hbdot] at hzz
          simp only [decide_eq_true_eq] at hzz
          rw [if_pos trivial] at hzz
          have hlen :=
            (List.dropWhile_suffix (l := tb) (fun x => decide (x = '.'))).length_le
          rw [hzz] at hlen
          simp at hlen
        have hab : a = b := by
          rw [hzc] at hr
          exact (List.cons_eq_cons.mp hr.symm).1.symm
        rwa [hab]
    rw [List.dropWhile_cons]
    simp [ha]

theorem stripDots_append_dot (u : PyStr) :
    stripDots (stripDots u ++ ['.']) = stripDots u := by
  have hself := dropWhile_stripDots u
  have hdot : (fun x => decide (x = '.')) '.' = true := by decide
  have hidem : List.rdropWhile (fun x => decide (x = '.')) (stripDots u)
      = stripDots u := by
    rw [stripDots_eq u]
    exact List.rdropWhile_idempotent _ _
  rw [stripDots_eq (stripDots u ++ ['.'])]
  rcases hy : stripDots u with _ | ⟨a, t⟩
  · simp [List.dropWhile, List.rdropWhile]
  · rw [hy] at hself hidem
    have ha : ¬(a = '.') := by
      intro hadot
      rw [List.dropWhile_cons, hadot] at hself
      simp only [decide_eq_true_eq] at hself
      rw [if_pos trivial] at hself
      have hlen :=
        (List.dropWhile_suffix (l := t) (fun x => decide (x = '.'))).length_le
      rw [hself] at hlen
      simp at hlen
    rw [List.cons_append, List.dropWhile_cons]
    simp only [decide_eq_true_eq, ha, if_false]
    rw [← List.cons_append,
      List.rdropWhile_concat_pos (fun x => decide (x = '.')) (a :: t) '.' hdot,
      hidem]

theorem pyLower_fix (x : PyStr) :
    pyLower (stripDots (pyLower x)) = stripDots (pyLower x) := by
  unfold pyLower
  conv_rhs => rw [← List.map_id (stripDots (List.map pyLowerChar x))]
  apply List.map_congr_left
  intro a ha
  have hmem : a ∈ List.map pyLowerChar x := stripDots_subset _ ha
  obtain ⟨b, _, hb⟩ := List.mem_map.mp hmem
  rw [← hb, pyLowerChar_idem, id_eq]

theorem sanitize_idem (x : PyStr) : sanitize (sanitize x) = sanitize x := by
  show stripDots (pyLower (stripDots (pyLower x) ++ ['.'])) ++ ['.'] = _
  have h1 : pyLower (stripDots (pyLower x) ++ ['.'])
      = stripDots (pyLower x) ++ ['.'] := by
    unfold pyLower
    rw [List.map_append]
    have h2 : List.map pyLowerChar ['.'] = ['.'] := by decide
    rw [h2]
    have h3 := pyLower_fix x
    unfold pyLower at h3
    rw [h3]
  rw [h1, stripDots_append_dot]
  rfl

/-- C4: name sanitization is idempotent — for every string `x`,
`sanitize (sanitize x) = sanitize x` — and it normalizes case and dots:
`sanitize "Example.COM"` and `sanitize "example.com."` both equal
`"example.com."` (lower-cased, leading/trailing dots stripped, one trailing
dot appended). -/
theorem C4_sanitize_idempotent_and_normalizing :
    (∀ x : PyStr, sanitize (sanitize x) = sanitize x) ∧
      sanitize (pys "Example.COM") = pys "example.com." ∧
      sanitize (pys "example.com.") = pys "example.com." ∧
      sanitize (pys "Example.COM") = sanitize (pys "example.com.") :=
  ⟨sanitize_idem, by decide, by decide, by decide⟩

/-! ### Header codec (claim C2) -/

/-- C2: the flags word is indeed packed MSB-first as
QR(1)|OPCODE(4)|AA(1)|TC(1)|RD(1)|RA(1)|Z(1)|AD(1)|CD(1)|RCODE(4) — the
packing of the spec scenario header is byte-exact — but unpacking is NOT the
inverse of packing: `DNSHeader.fromBytes` extracts `ad` with mask `0b1000`
shifted by 5 and `cd` with mask `0b100` shifted by 4 (bits of the RCODE
field), so both always decode to zero, and a header with `ad=AUTHENTICATED`
decodes back to the all-defaults header instead of itself. -/
theorem C2_header_unpack_not_inverse :
    headerToBytes headerScenario = [18, 52, 1, 0, 0, 1, 0, 0, 0, 0, 0, 0] ∧
      headerFromBytes (headerToBytes headerAD) = some defaultHeader ∧
      defaultHeader ≠ headerAD ∧
      headerFromBytes (headerToBytes headerAD) ≠ some headerAD :=
  ⟨by decide, by decide, by decide, by decide⟩

/-! ### Cache insertion (claim C6) -/

theorem recordEq_iff (a b : DNSRecord) : recordEq a b = true ↔
    (a.name = b.name ∧ a.qtype = b.qtype ∧ a.qclass = b.qclass ∧
      a.ttl = b.ttl ∧ a.rdata = b.rdata) := by
  unfold recordEq
  exact decide_eq_true_iff

theorem recordEq_refl (r : DNSRecord) : recordEq r r = true :=
  (recordEq_iff r r).mpr ⟨rfl, rfl, rfl, rfl, rfl⟩

theorem recordEq_trans (r' r x : DNSRecord) (h1 : recordEq r' r = true)
    (h2 : recordEq r x = true) : recordEq r' x = true := by
  have p1 := (recordEq_iff r' r).mp h1
  have p2 := (recordEq_iff r x).mp h2
  exact (recordEq_iff r' x).mpr ⟨p1.1.trans p2.1, p1.2.1.trans p2.2.1,
    p1.2.2.1.trans p2.2.2.1, p1.2.2.2.1.trans p2.2.2.2.1,
    p1.2.2.2.2.trans p2.2.2.2.2⟩

theorem recordEq_name (r' r : DNSRecord) (h : recordEq r' r = true) :
    r'.name = r.name := ((recordEq_iff r' r).mp h).1

theorem recordEq_qtype (r' r : DNSRecord) (h : recordEq r' r = true) :
    r'.qtype = r.qtype := ((recordEq_iff r' r).mp h).2.1

theorem typeInsert_absorb (r' r : DNSRecord) (h : recordEq r' r = true)
    (tm : TypeMap) : typeInsert r' (typeInsert r tm) = typeInsert r tm := by
  induction tm with
  | nil =>
    show typeInsert r' [(r.qtype, [r])] = [(r.qtype, [r])]
    simp only [typeInsert]
    rw [if_pos (recordEq_qtype r' r h).symm]
    have hany : [r].any (fun x => recordEq r' x) = true := by
      simp only [List.any_cons, List.any_nil, Bool.or_false]
      exact h
    rw [if_pos hany]
  | cons e rest ih =>
    obtain ⟨q, l⟩ := e
    by_cases hq : q = r.qtype
    · simp only [typeInsert, if_pos hq]
      have hq' : q = r'.qtype := by rw [recordEq_qtype r' r h]; exact hq
      set l1 := if l.any (fun x => recordEq r x) then l else l ++ [r] with hl1
      simp only [typeInsert, if_pos hq']
      have hany : l1.any (fun x => recordEq r' x) = true := by
        by_cases hcase : l.any (fun x => recordEq r x) = true
        · rw [hl1, if_pos hcase]
          obtain ⟨x, hx, hrx⟩ := List.any_eq_true.mp hcase
          exact List.any_eq_true.mpr ⟨x, hx, recordEq_trans r' r x h hrx⟩
        · rw [hl1, if_neg hcase]
          refine List.any_eq_true.mpr ⟨r, by simp, h⟩
      rw [if_pos hany]
    · have hq' : ¬ q = r'.qtype := by rw [recordEq_qtype r' r h]; exact hq
      simp only [typeInsert, if_neg hq, if_neg hq']
      rw [ih]

theorem cacheInsert_absorb (r' r : DNSRecord) (h : recordEq r' r = true)
    (c : Cache) : cacheInsert r' (cacheInsert r c) = cacheInsert r c := by
  have hname : sanitize r'.name = sanitize r.name := by
    rw [recordEq_name r' r h]
  induction c with
  | nil =>
    show cacheInsert r' [(sanitize r.name, typeInsert r [])]
      = [(sanitize r.name, typeInsert r [])]
    simp only [cacheInsert]
    rw [if_pos hname.symm, typeInsert_absorb r' r h]
  | cons e rest ih =>
    obtain ⟨n, tm⟩ := e
    by_cases hn : n = sanitize r.name
    · have hn' : n = sanitize r'.name := by rw [hname]; exact hn
      simp only [cacheInsert, if_pos hn, if_pos hn']
      rw [typeInsert_absorb r' r h]
    · have hn' : ¬ n = sanitize r'.name := by rw [hname]; exact hn
      simp only [cacheInsert, if_neg hn, if_neg hn']
      rw [ih]

theorem cacheRecords_single (r : DNSRecord) (c : Cache) :
    cacheRecords [r] c = cacheInsert r c := rfl

/-- C6: cache insertion is idempotent — inserting a record `n ≥ 1` times
leaves exactly the state of inserting it once — and deduplication is by
`DNSRecord.__eq__` (structural equality ignoring creation time): re-inserting
any record structurally equal to an already-inserted one changes nothing. -/
theorem C6_cache_insertion_idempotent :
    (∀ (c : Cache) (r : DNSRecord) (n : Nat), 1 ≤ n →
        (fun cc => cacheRecords [r] cc)^[n] c = cacheRecords [r] c) ∧
      (∀ (c : Cache) (r r' : DNSRecord), recordEq r' r = true →
        cacheRecords [r'] (cacheRecords [r] c) = cacheRecords [r] c) := by
  constructor
  · intro c r n hn
    have key : ∀ (m : Nat) (cc : Cache),
        (fun cc => cacheRecords [r] cc)^[m] (cacheRecords [r] cc)
          = cacheRecords [r] cc := by
      intro m
      induction m with
      | zero => intro cc; rfl
      | succ k ih =>
        intro cc
        rw [Function.iterate_succ_apply]
        show (fun cc => cacheRecords [r] cc)^[k]
          (cacheRecords [r] (cacheRecords [r] cc)) = _
        have habs : cacheRecords [r] (cacheRecords [r] cc)
            = cacheRecords [r] cc :=
          cacheInsert_absorb r r (recordEq_refl r) cc
        rw [habs]
        exact ih cc
    obtain ⟨m, rfl⟩ : ∃ m, n = m + 1 := ⟨n - 1, by omega⟩
    rw [Function.iterate_succ_apply]
    exact key m c
  · intro c r r' h
    exact cacheInsert_absorb r' r h c

/-- Witness instantiating C6 at concrete inputs: triple insertion of
`nsRecA`, and insertion of a copy differing only in creation time. -/
theorem C6_cache_insertion_idempotent_witness :
    (fun cc => cacheRecords [nsRecA] cc)^[3] cacheAB
        = cacheRecords [nsRecA] cacheAB ∧
      cacheRecords [nsRecATime5] (cacheRecords [nsRecA] cacheAB)
        = cacheRecords [nsRecA] cacheAB :=
  ⟨C6_cache_insertion_idempotent.1 cacheAB nsRecA 3 (by decide),
   C6_cache_insertion_idempotent.2 cacheAB nsRecA nsRecATime5 (by decide)⟩

theorem pySplit_ne_nil (sep : Char) (s : PyStr) : pySplit sep s ≠ [] := by
  induction s with
  | nil => simp [pySplit]
  | cons c rest ih =>
    simp only [pySplit]
    rcases h : pySplit sep rest with _ | ⟨p, ps⟩
    · exact absurd h ih
    · by_cases hc : c = sep <;> simp [hc]

theorem pyJoin_pySplit (sep : Char) (s : PyStr) :
    pyJoin [sep] (pySplit sep s) = s := by
  induction s with
  | nil => rfl
  | cons c rest ih =>
    rcases h : pySplit sep rest with _ | ⟨p, ps⟩
    · exact absurd h (pySplit_ne_nil sep rest)
    · rw [h] at ih
      simp only [pySplit, h]
      by_cases hc : c = sep
      · rw [if_pos hc]
        show [sep] ++ pyJoin [sep] (p :: ps) = c :: rest
        rw [ih, hc]
        rfl
      · rw [if_neg hc]
        rcases ps with _ | ⟨q, qs⟩
        · show c :: p = c :: rest
          rw [show p = rest from ih]
        · show (c :: p) ++ [sep] ++ pyJoin [sep] (q :: qs) = c :: rest
          rw [List.cons_append, List.cons_append]
          exact congrArg (fun t => c :: t) ih

theorem nearestAux_eq_firstTruthy (c : Cache) (parts : List PyStr) :
    nearestAux c parts = firstTruthyNS c ((parts.tails.dropLast).map (pyJoin ['.'])) := by
  induction parts with
  | nil => rfl
  | cons p rest ih =>
    rw [List.tails_cons]
    rw [List.dropLast_cons_of_ne_nil (by
      rcases rest with _ | ⟨y, ys⟩ <;> simp [List.tails])]
    rw [List.map_cons]
    show nearestAux c (p :: rest) = _
    simp only [nearestAux, firstTruthyNS, List.findSome?_cons]
    by_cases ht : truthyL (checkCache c (pyJoin ['.'] (p :: rest)) .NS) = true
    · simp only [if_pos ht]
      rcases hcc : checkCache c (pyJoin ['.'] (p :: rest)) .NS with _ | l
      · rw [hcc] at ht; simp [truthyL] at ht
      · rfl
    · simp only [if_neg ht]
      exact ih

theorem pyJoin_suffix_of_suffix (sep : Char) (t parts : List PyStr)
    (h : t <:+ parts) : pyJoin [sep] t <:+ pyJoin [sep] parts := by
  induction parts with
  | nil =>
    rw [List.suffix_nil.mp h]
  | cons p rest ih =>
    rcases List.suffix_cons_iff.mp h with h1 | h2
    · rw [h1]
    · refine (ih h2).trans ?_
      rcases rest with _ | ⟨y, ys⟩
      · exact List.nil_suffix
      · show pyJoin [sep] (y :: ys) <:+ p ++ [sep] ++ pyJoin [sep] (y :: ys)
        exact List.suffix_append _ _

theorem suffixProbes_are_suffixes (fqdn d : PyStr)
    (h : d ∈ suffixProbes (sanitize fqdn)) : d <:+ sanitize fqdn := by
  obtain ⟨t, ht, rfl⟩ := List.mem_map.mp h
  have ht2 : t ∈ (pySplit '.' (sanitize fqdn)).tails :=
    List.dropLast_subset _ ht
  have hsfx : t <:+ pySplit '.' (sanitize fqdn) := (List.mem_tails _ _).mp ht2
  have := pyJoin_suffix_of_suffix '.' t (pySplit '.' (sanitize fqdn)) hsfx
  rwa [pyJoin_pySplit] at this

theorem suffixProbes_length_decreasing (s : PyStr) :
    List.Chain' (fun a b => b.length < a.length) (suffixProbes s) := by
  unfold suffixProbes
  generalize pySplit '.' s = parts
  induction parts with
  | nil => simp [List.tails]
  | cons p rest ih =>
    rw [List.tails_cons]
    rw [List.dropLast_cons_of_ne_nil (by
      rcases rest with _ | ⟨y, ys⟩ <;> simp [List.tails])]
    rw [List.map_cons]
    apply List.Chain'.cons'
    · exact ih
    · intro b hb
      rcases rest with _ | ⟨y, ys⟩
      · simp [List.tails] at hb
      · rw [List.tails_cons, List.dropLast_cons_of_ne_nil (by
          rcases ys with _ | ⟨z, zs⟩ <;> simp [List.tails])] at hb
        rw [List.map_cons] at hb
        simp only [List.head?_cons, Option.mem_def, Option.some.injEq] at hb
        rw [← hb]
        show (pyJoin ['.'] (y :: ys)).length
          < (pyJoin ['.'] (p :: y :: ys)).length
        have hj : pyJoin ['.'] (p :: y :: ys)
            = p ++ ['.'] ++ pyJoin ['.'] (y :: ys) := rfl
        rw [hj]
        simp only [List.length_append, List.length_cons, List.length_nil]
        omega


/-- C5: `__check_nearest_ns` probes exactly the dot-join of every suffix of
the dot-split of the sanitized name, from the full name down to the root
(tried last), and returns the first truthy cached NS list; every probe is a
suffix of the sanitized name and probe lengths strictly decrease (so a hit is
the longest cached suffix).  On a cache holding NS sets for `a.` and `b.a.`:
`nearest_ns "c.b.a."` is the `b.a.` set, `nearest_ns "c.a."` the `a.` set,
and `nearest_ns "d."` is null when no root NS is cached. -/
theorem C5_nearest_ns_longest_suffix :
    (∀ (c : Cache) (fqdn : PyStr),
        nearestNS c fqdn = firstTruthyNS c (suffixProbes (sanitize fqdn))) ∧
      (∀ (fqdn d : PyStr), d ∈ suffixProbes (sanitize fqdn) →
        d <:+ sanitize fqdn) ∧
      (∀ s : PyStr,
        List.Chain' (fun a b => b.length < a.length) (suffixProbes s)) ∧
      nearestNS cacheAB (pys "c.b.a.") = some [nsRecBA] ∧
      nearestNS cacheAB (pys "c.a.") = some [nsRecA] ∧
      nearestNS cacheAB (pys "d.") = none := by
  refine ⟨?_, suffixProbes_are_suffixes, suffixProbes_length_decreasing,
    by decide, by decide, by decide⟩
  intro c fqdn
  unfold nearestNS suffixProbes
  exact nearestAux_eq_firstTruthy c _

/-- Witness instantiating the hypothesis-bearing part of C5: the probe
`b.a.` generated for `c.b.a.` is a suffix of the sanitized name. -/
theorem C5_nearest_ns_longest_suffix_witness :
    pys "b.a." <:+ sanitize (pys "c.b.a.") :=
  C5_nearest_ns_longest_suffix.2.1 (pys "c.b.a.") (pys "b.a.") (by decide)

/-! ### Step equations of the engine (all definitional) -/

theorem recursiveQuery_zero (net : Net) (st : ResolverState) (fqdn0 : PyStr)
    (qtype : QTYPE) (limit count : Nat) :
    recursiveQuery net 0 st fqdn0 qtype limit count
      = ⟨.diverge, st, 0, count⟩ := rfl

theorem recursiveQuery_succ (net : Net) (fuel : Nat) (st : ResolverState)
    (fqdn0 : PyStr) (qtype : QTYPE) (limit count : Nat) :
    recursiveQuery net (fuel + 1) st fqdn0 qtype limit count
      = (if limit ≤ count then ⟨.ret none, st, 0, count⟩
         else
           let fqdn := sanitize fqdn0
           let cacheHit := checkCache st.cache fqdn qtype
           if truthyL cacheHit then
             ⟨.ret (some (mkDNSPacket defaultHeader [] (cacheHit.getD [])
                 [] [])), st, 0, count⟩
           else
             let nearest := nearestNS st.cache fqdn
             if ¬ truthyL nearest then
               queryLoop net fuel st fqdn qtype limit count
                 (st.rootSrv.map (·.rdata))
             else
               match gluePass st.cache (nearest.getD []) with
               | .error e => ⟨.exn e, st, 0, count⟩
               | .ok servers =>
                 if servers = [] then
                   ⟨.exn attrErr, st, 0, max count (count + 1)⟩
                 else queryLoop net fuel st fqdn qtype limit count servers) :=
  rfl

theorem queryLoop_zero (net : Net) (st : ResolverState) (fqdn : PyStr)
    (qtype : QTYPE) (limit count : Nat) (servers : List Rdata) :
    queryLoop net 0 st fqdn qtype limit count servers
      = ⟨.diverge, st, 0, count⟩ := rfl

theorem queryLoop_succ (net : Net) (fuel : Nat) (st : ResolverState)
    (fqdn : PyStr) (qtype : QTYPE) (limit count : Nat)
    (servers : List Rdata) :
    queryLoop net (fuel + 1) st fqdn qtype limit count servers
      = (if servers = [] then ⟨.ret none, st, 0, count⟩
         else
           match net fqdn qtype servers with
           | none => ⟨.ret none, st, 1, count⟩
           | some resp =>
             if resp.header.rcode ≠ .NO_ERROR then ⟨.ret none, st, 1, count⟩
             else
               let st1 : ResolverState :=
                 { st with cache := (cacheRecords resp.additional_records
                     (cacheRecords resp.authority_records
                       (cacheRecords resp.answer_records st.cache))) }
               if 0 < resp.header.ancount then
                 ⟨.ret (some resp), st1, 1, count⟩
               else
                 match buildNsList
                     (resp.authority_records ++ resp.additional_records) with
                 | .error e => ⟨.exn e, st1, 1, count⟩
                 | .ok nsList =>
                   if nsList = [] then ⟨.ret none, st1, 1, count⟩
                   else
                     match serversFromNsList st1.cache nsList with
                     | .error e => ⟨.exn e, st1, 1, count⟩
                     | .ok servers2 =>
                       if servers2 ≠ [] then
                         let out := queryLoop net fuel st1 fqdn qtype limit
                           count servers2
                         ⟨out.res, out.st, out.netCalls + 1,
                           max count out.maxCount⟩
                       else
                         let fbOut := glueFallback net fuel st1 nsList limit
                           count
                         match fbOut.res with
                         | .diverge => ⟨.diverge, fbOut.st,
                             fbOut.netCalls + 1, max count fbOut.maxCount⟩
                         | .exn e => ⟨.exn e, fbOut.st, fbOut.netCalls + 1,
                             max count fbOut.maxCount⟩
                         | .ok servers3 =>
                           let out := queryLoop net fuel fbOut.st fqdn qtype
                             limit count servers3
                           ⟨out.res, out.st,
                             fbOut.netCalls + out.netCalls + 1,
                             max fbOut.maxCount (max count out.maxCount)⟩) :=
  rfl

theorem glueFallback_zero (net : Net) (st : ResolverState)
    (lst : List Rdata) (limit count : Nat) :
    glueFallback net 0 st lst limit count = ⟨.diverge, st, 0, count⟩ := rfl

theorem glueFallback_succ (net : Net) (fuel : Nat) (st : ResolverState)
    (lst : List Rdata) (limit count : Nat) :
    glueFallback net (fuel + 1) st lst limit count
      = (match lst with
         | [] => ⟨.ok [], st, 0, count⟩
         | .soa _ :: _ => ⟨.exn attrErr, st, 0, max count (count + 1)⟩
         | .str s :: rest =>
           let out := recursiveQuery net fuel st s .A limit (count + 1)
           match out.res with
           | .diverge => ⟨.diverge, out.st, out.netCalls,
               max count out.maxCount⟩
           | .exn e => ⟨.exn e, out.st, out.netCalls, max count out.maxCount⟩
           | .ret none =>
             ⟨.exn attrErr, out.st, out.netCalls, max count out.maxCount⟩
           | .ret (some pkt) =>
             if pkt.answer_records ≠ [] then
               ⟨.ok (pkt.answer_records.map (·.rdata)), out.st, out.netCalls,
                 max count out.maxCount⟩
             else
               let out2 := glueFallback net fuel out.st rest limit count
               ⟨out2.res, out2.st, out.netCalls + out2.netCalls,
                 max out.maxCount out2.maxCount⟩) := rfl

/-! ### Cache fast path (claim C7) -/

theorem C7_amended_fast_path (net : Net) (fuel : Nat) (st : ResolverState)
    (fqdn : PyStr) (qtype : QTYPE) (limit count : Nat) (l : List DNSRecord)
    (hlt : count < limit)
    (hcc : checkCache st.cache (sanitize fqdn) qtype = some l)
    (hne : l ≠ []) :
    recursiveQuery net (fuel + 1) st fqdn qtype limit count
      = ⟨.ret (some (mkDNSPacket defaultHeader [] l [] [])), st, 0, count⟩ := by
  rw [recursiveQuery_succ]
  rw [if_neg (Nat.not_le.mpr hlt)]
  simp only [hcc]
  rcases l with _ | ⟨x, xs⟩
  · exact absurd rfl hne
  · simp [truthyL]

/-- Witness instantiating `C7_amended_fast_path` on the cached
`example.com. A` state (no network call: the ghost counter is 0). -/
theorem C7_amended_fast_path_witness :
    0 < 10 ∧
      checkCache stCachedA.cache (sanitize (pys "example.com.")) .A
        = some [aRecExample] ∧
      recursiveQuery netNone 3 stCachedA (pys "example.com.") .A 10 0
        = ⟨.ret (some (mkDNSPacket defaultHeader [] [aRecExample] [] [])),
            stCachedA, 0, 0⟩ :=
  ⟨by decide, by decide,
    C7_amended_fast_path netNone 2 stCachedA (pys "example.com.") .A 10 0
      [aRecExample] (by decide) (by decide) (by decide)⟩

/-- C7 counterexample: the cache fast path serves the answer without any
network interaction, but the synthesized packet carries the DEFAULT header,
whose `qr` is `QUERY` — not `RESPONSE` as the claim states. -/
theorem C7_counterexample_qr_is_query :
    (recursiveQuery netNone 3 stCachedA (pys "example.com.") .A 10 0).res
        = .ret (some (mkDNSPacket defaultHeader [] [aRecExample] [] [])) ∧
      (recursiveQuery netNone 3 stCachedA (pys "example.com.") .A 10 0).netCalls
        = 0 ∧
      (mkDNSPacket defaultHeader [] [aRecExample] [] []).header.qr
        = QR.QUERY ∧
      QR.QUERY ≠ QR.RESPONSE :=
  ⟨by decide, by decide, by decide, by decide⟩

/-! ### Non-zero rcode handling (claim C1) -/

/-- C1 (amended): inside the referral loop, a received response whose rcode
is not NO_ERROR makes `recursive_query` return null immediately — the state
is unchanged (the response is not even cached) and exactly the one network
call is made (no alternative servers are tried).  The response packet is NOT
returned. -/
theorem C1_amended_rcode_returns_null (net : Net) (fuel : Nat)
    (st : ResolverState) (fqdn : PyStr) (qtype : QTYPE) (limit count : Nat)
    (servers : List Rdata) (resp : DNSPacket)
    (hne : servers ≠ []) (hnet : net fqdn qtype servers = some resp)
    (hrc : resp.header.rcode ≠ .NO_ERROR) :
    queryLoop net (fuel + 1) st fqdn qtype limit count servers
      = ⟨.ret none, st, 1, count⟩ := by
  rw [queryLoop_succ]
  rw [if_neg hne, hnet]
  simp only [hrc]
  rw [if_pos hrc]

/-- Witness instantiating `C1_amended_rcode_returns_null` on a concrete
NAME_ERROR response. -/
theorem C1_amended_rcode_returns_null_witness :
    ([Rdata.str (pys "198.41.0.4")] ≠ ([] : List Rdata)) ∧
      netNX (pys "example.com.") .A [.str (pys "198.41.0.4")] = some respNX ∧
      respNX.header.rcode ≠ .NO_ERROR ∧
      queryLoop netNX 1 stRootOnly (pys "example.com.") .A 10 0
          [.str (pys "198.41.0.4")]
        = ⟨.ret none, stRootOnly, 1, 0⟩ :=
  ⟨by decide, rfl, by decide,
    C1_amended_rcode_returns_null netNX 0 stRootOnly (pys "example.com.") .A
      10 0 [.str (pys "198.41.0.4")] respNX (by decide) rfl (by decide)⟩

/-- C1 counterexample: a full `recursive_query` run against an oracle that
answers with rcode NAME_ERROR returns null, not the received response
packet. -/
theorem C1_counterexample_rcode_response_dropped :
    (recursiveQuery netNX 3 stRootOnly (pys "example.com.") .A 10 0).res
        = .ret none ∧
      netNX (pys "example.com.") .A [.str (pys "198.41.0.4")] = some respNX ∧
      respNX.header.rcode = .NAME_ERROR ∧
      RQRes.ret none ≠ .ret (some respNX) :=
  ⟨by decide, rfl, by decide, by decide⟩

/-! ### Malformed input (claim C8) -/

theorem recursiveQuery_sanitize_congr (net : Net) (fuel : Nat)
    (st : ResolverState) (a b : PyStr) (qtype : QTYPE) (limit count : Nat)
    (h : sanitize a = sanitize b) :
    recursiveQuery net fuel st a qtype limit count
      = recursiveQuery net fuel st b qtype limit count := by
  cases fuel with
  | zero => rfl
  | succ f =>
    rw [recursiveQuery_succ, recursiveQuery_succ, h]

/-- C8 (amended): the resolver does not validate inputs.  An empty name is
sanitized to the root name `.` and processed like any other query (first
conjunct: the two runs are equal for every oracle, state and fuel); an
invalid IPv4 literal is embedded unvalidated into the `in-addr.arpa` PTR
name (second conjunct: `reverse_lookup_v4("not.an.ip")` happily returns a
cached PTR answer); and an invalid IPv6 literal makes `reverse_lookup_v6`
raise `AddressValueError` out of `ipaddress.IPv6Address` instead of
returning null (third conjunct). -/
theorem C8_amended_no_input_validation :
    (∀ (net : Net) (fuel : Nat) (st : ResolverState) (qtype : QTYPE)
        (limit count : Nat),
        recursiveQuery net fuel st (pys "") qtype limit count
          = recursiveQuery net fuel st (pys ".") qtype limit count) ∧
      (reverseLookupV4 netNone 3 stPtrCached (pys "not.an.ip")).res
        = .ret (some (mkDNSPacket defaultHeader [] [ptrRecBad] [] [])) ∧
      (reverseLookupV6 netNone 3 stRootOnly (pys "zzz")).res
        = .exn addrErr := by
  refine ⟨?_, by decide, by decide⟩
  intro net fuel st qtype limit count
  exact recursiveQuery_sanitize_congr net fuel st (pys "") (pys ".") qtype
    limit count (by decide)

/-- C8 counterexample: with an A record cached under the root name `.`, a
query for the EMPTY name returns that packet — not null as the claim
states — because the empty name is never rejected. -/
theorem C8_counterexample_empty_name_not_rejected :
    (recursiveQuery netNone 3 stDotCached (pys "") .A 10 0).res
        = .ret (some (mkDNSPacket defaultHeader [] [rootDotARec] [] [])) ∧
      (recursiveQuery netNone 3 stDotCached (pys "") .A 10 0).res
        ≠ .ret none :=
  ⟨by decide, by decide⟩

/-! ### Recursion depth bound (claim C10) -/

theorem engine_maxCount_le (fuel : Nat) :
    (∀ (net : Net) (st : ResolverState) (fqdn : PyStr) (qtype : QTYPE)
        (limit count : Nat), count ≤ limit →
        (recursiveQuery net fuel st fqdn qtype limit count).maxCount
          ≤ limit) ∧
      (∀ (net : Net) (st : ResolverState) (fqdn : PyStr) (qtype : QTYPE)
          (limit count : Nat) (servers : List Rdata), count < limit →
          (queryLoop net fuel st fqdn qtype limit count servers).maxCount
            ≤ limit) ∧
      (∀ (net : Net) (st : ResolverState) (lst : List Rdata)
          (limit count : Nat), count < limit →
          (glueFallback net fuel st lst limit count).maxCount ≤ limit) := by
  induction fuel with
  | zero =>
    refine ⟨?_, ?_, ?_⟩
    · intro net st fqdn qtype limit count h
      rw [recursiveQuery_zero]
      exact h
    · intro net st fqdn qtype limit count servers h
      rw [queryLoop_zero]
      dsimp only
      omega
    · intro net st lst limit count h
      rw [glueFallback_zero]
      dsimp only
      omega
  | succ f ih =>
    obtain ⟨ihP, ihQ, ihR⟩ := ih
    refine ⟨?_, ?_, ?_⟩
    · intro net st fqdn qtype limit count h
      rw [recursiveQuery_succ]
      by_cases hl : limit ≤ count
      · rw [if_pos hl]
        exact h
      · rw [if_neg hl]
        dsimp only
        split
        · exact h
        · split
          · exact ihQ net st _ qtype limit count _ (by omega)
          · split
            · dsimp only; exact h
            · split
              · dsimp only; omega
              · exact ihQ net st _ qtype limit count _ (by omega)
    · intro net st fqdn qtype limit count servers h
      rw [queryLoop_succ]
      dsimp only
      split
      · dsimp only; omega
      · split
        · dsimp only; omega
        · split
          · dsimp only; omega
          · split
            · dsimp only; omega
            · split
              · dsimp only; omega
              · split
                · dsimp only; omega
                · split
                  · dsimp only; omega
                  · split
                    · dsimp only
                      exact Nat.max_le.mpr ⟨by omega,
                        ihQ _ _ _ _ _ _ _ h⟩
                    · split
                      · dsimp only
                        exact Nat.max_le.mpr ⟨by omega, ihR _ _ _ _ _ h⟩
                      · dsimp only
                        exact Nat.max_le.mpr ⟨by omega, ihR _ _ _ _ _ h⟩
                      · dsimp only
                        exact Nat.max_le.mpr ⟨ihR _ _ _ _ _ h,
                          Nat.max_le.mpr ⟨by omega, ihQ _ _ _ _ _ _ _ h⟩⟩
    · intro net st lst limit count h
      rw [glueFallback_succ]
      split
      · dsimp only; omega
      · dsimp only; omega
      · dsimp only
        split
        · dsimp only
          exact Nat.max_le.mpr ⟨by omega, ihP _ _ _ _ _ _ (by omega)⟩
        · dsimp only
          exact Nat.max_le.mpr ⟨by omega, ihP _ _ _ _ _ _ (by omega)⟩
        · dsimp only
          exact Nat.max_le.mpr ⟨by omega, ihP _ _ _ _ _ _ (by omega)⟩
        · split
          · dsimp only
            exact Nat.max_le.mpr ⟨by omega, ihP _ _ _ _ _ _ (by omega)⟩
          · dsimp only
            exact Nat.max_le.mpr ⟨ihP _ _ _ _ _ _ (by omega),
              ihR _ _ _ _ _ h⟩


/-- C10: nested NS-glue resolution cannot descend unboundedly.  Every call
entered with `recursion_count ≥ recursion_limit` returns null immediately
(state untouched, no network call); every nested self-call passes
`recursion_count + 1` (visible in the definition), and consequently the
largest `recursion_count` of any entered frame — the ghost `maxCount` —
never exceeds `recursion_limit` whenever the call starts within the limit,
so the depth of nested `recursive_query` invocations is bounded by
`recursion_limit`. -/
theorem C10_recursion_depth_bounded :
    (∀ (net : Net) (fuel : Nat) (st : ResolverState) (fqdn : PyStr)
        (qtype : QTYPE) (limit count : Nat), limit ≤ count →
        recursiveQuery net (fuel + 1) st fqdn qtype limit count
          = ⟨.ret none, st, 0, count⟩) ∧
      (∀ (net : Net) (fuel : Nat) (st : ResolverState) (fqdn : PyStr)
          (qtype : QTYPE) (limit count : Nat), count ≤ limit →
          (recursiveQuery net fuel st fqdn qtype limit count).maxCount
            ≤ limit) := by
  constructor
  · intro net fuel st fqdn qtype limit count h
    rw [recursiveQuery_succ, if_pos h]
  · intro net fuel st fqdn qtype limit count h
    exact (engine_maxCount_le fuel).1 net st fqdn qtype limit count h

/-- Witness instantiating C10: a call at the limit returns null untouched,
and a full run from count 0 keeps every frame within the limit. -/
theorem C10_recursion_depth_bounded_witness :
    recursiveQuery netNone 5 stRootOnly (pys "example.com.") .A 10 10
        = ⟨.ret none, stRootOnly, 0, 10⟩ ∧
      (recursiveQuery netNX 3 stRootOnly (pys "example.com.") .A 10 0).maxCount
        ≤ 10 :=
  ⟨C10_recursion_depth_bounded.1 netNone 4 stRootOnly (pys "example.com.") .A
      10 10 (Nat.le_refl 10),
    C10_recursion_depth_bounded.2 netNX 3 stRootOnly (pys "example.com.") .A
      10 0 (by omega)⟩

/-! ### Name decoder consumed-byte accounting (claim C9) -/

theorem readNameAux_consumed : ∀ (fuel : Nat) (data : List Nat)
    (offset so : Nat) (acc n : PyStr) (c : Nat),
    readNameAux data offset none fuel so acc = some (n, c) →
    (acc = [] ∨ acc.getLast? = some '.') →
    ∃ (k : Nat) (ptr : Bool), labelRun data offset fuel so = some (k, ptr) ∧
      c = k + (if ptr then 2 else 1) ∧
      (n = [] ∨ n.getLast? = some '.') := by
  intro fuel
  induction fuel with
  | zero =>
    intro data offset so acc n c h _
    simp [readNameAux] at h
  | succ f ih =>
    intro data offset so acc n c h hacc
    rw [readNameAux] at h
    rcases hb : data[offset + so]? with _ | b
    · rw [hb] at h; simp at h
    · rw [hb] at h
      dsimp only at h
      by_cases hcond : b ≠ 0 ∧ limitOk none so = true
      · rw [if_pos hcond] at h
        by_cases h192 : b = 192
        · rw [if_pos h192] at h
          rcases hptr : data[offset + so + 1]? with _ | ptrv
          · rw [hptr] at h; simp at h
          · rw [hptr] at h
            dsimp only at h
            rcases hrec : readNameAux data ptrv none f 0 [] with _ | ⟨pn, pc⟩
            · rw [hrec] at h; simp at h
            · rw [hrec] at h
              dsimp only at h
              simp only [Option.some.injEq, Prod.mk.injEq] at h
              obtain ⟨hn, hc⟩ := h
              obtain ⟨k2, ptr2, _, _, hpn⟩ :=
                ih data ptrv 0 [] pn pc hrec (Or.inl rfl)
              refine ⟨so, true, ?_, ?_, ?_⟩
              · rw [labelRun, hb]
                dsimp only
                rw [if_neg hcond.1, if_pos h192]
              · simp [← hc]
              · rcases hpn with hpn | hpn
                · rw [← hn, hpn, List.append_nil]
                  exact hacc
                · right
                  rw [← hn]
                  rw [List.getLast?_append_of_ne_nil]
                  · exact hpn
                  · intro hnil
                    rw [hnil] at hpn
                    simp at hpn
        · rw [if_neg h192] at h
          obtain ⟨k2, ptr2, hlr, hc, hn⟩ :=
            ih data offset (so + 1 + b) _ n c h (by
              right
              rw [List.getLast?_append]
              rfl)
          refine ⟨k2, ptr2, ?_, hc, hn⟩
          rw [labelRun, hb]
          dsimp only
          rw [if_neg hcond.1, if_neg h192]
          exact hlr
      · rw [if_neg hcond] at h
        simp only [Option.some.injEq, Prod.mk.injEq] at h
        obtain ⟨hn, hc⟩ := h
        have hb0 : b = 0 := by
          by_contra hb0
          exact hcond ⟨hb0, rfl⟩
        refine ⟨so, false, ?_, ?_, ?_⟩
        · rw [labelRun, hb]
          dsimp only
          rw [if_pos hb0]
        · simp [← hc]
        · rw [← hn]; exact hacc

/-- C9: whenever the name decoder succeeds (with no RDLENGTH limit), it
returns the assembled dot-terminated name together with the byte count
consumed at the CURRENT position: the count is the distance to the
terminator found by the pointer-blind scan `labelRun`, plus two when that
terminator is a compression pointer (the pointer occupies exactly two bytes
and the labels read at its target contribute nothing) and plus one when it
is the zero byte; and every non-empty decoded name ends with a dot. -/
theorem C9_decoder_consumed_count (data : List Nat) (offset fuel : Nat)
    (n : PyStr) (c : Nat)
    (h : readName data offset none fuel = some (n, c)) :
    ∃ (k : Nat) (ptr : Bool), labelRun data offset fuel 0 = some (k, ptr) ∧
      c = k + (if ptr then 2 else 1) ∧
      (n = [] ∨ n.getLast? = some '.') :=
  readNameAux_consumed fuel data offset 0 [] n c h (Or.inl rfl)

/-- Witness instantiating C9 on `nameBuf`: the name `foo.` + pointer to
`a.` decodes to `foo.a.` consuming 4 label bytes plus exactly 2 pointer
bytes. -/
theorem C9_decoder_consumed_count_witness :
    readName nameBuf 3 none 20 = some (pys "foo.a.", 6) ∧
      (∃ (k : Nat) (ptr : Bool), labelRun nameBuf 3 20 0 = some (k, ptr) ∧
        6 = k + (if ptr then 2 else 1) ∧
        (pys "foo.a." = [] ∨ (pys "foo.a.").getLast? = some '.')) :=
  ⟨by decide, C9_decoder_consumed_count nameBuf 3 20 (pys "foo.a.") 6
    (by decide)⟩

theorem getElem?_append_len {α : Type} (pre rest : List α) (k : Nat) :
    (pre ++ rest)[pre.length + k]? = rest[k]? := by
  rw [List.getElem?_append_right (by omega)]
  congr 1
  omega

theorem getElem?_at_len {α : Type} (pre rest : List α) :
    (pre ++ rest)[pre.length]? = rest[0]? := by
  have := getElem?_append_len pre rest 0
  rwa [Nat.add_zero] at this

theorem read16_at (pre rest : List Nat) (v : Nat) (_hv : v < 65536) :
    read16 (pre ++ (pack16 v ++ rest)) pre.length = some v := by
  unfold read16
  rw [getElem?_at_len, getElem?_append_len]
  show (match (pack16 v ++ rest)[0]?, (pack16 v ++ rest)[1]? with
    | some a, some b => some (a * 256 + b)
    | _, _ => none) = some v
  unfold pack16
  simp only [List.cons_append, List.getElem?_cons_zero, List.getElem?_cons_succ]
  congr 1
  omega

theorem read32_at (pre rest : List Nat) (v : Nat) (_hv : v < 4294967296) :
    read32 (pre ++ (pack32 v ++ rest)) pre.length = some v := by
  unfold read32
  rw [getElem?_at_len, getElem?_append_len, getElem?_append_len,
    getElem?_append_len]
  unfold pack32
  simp only [List.cons_append, List.getElem?_cons_zero, List.getElem?_cons_succ]
  congr 1
  omega

theorem map_ofNat_map_toNat (l : PyStr) :
    (l.map Char.toNat).map Char.ofNat = l := by
  induction l with
  | nil => rfl
  | cons c rest ih =>
    simp only [List.map_cons, Char.ofNat_toNat, ih]

theorem encLabels_length_pos (labels : List PyStr) :
    0 < (encLabels labels).length := by
  unfold encLabels
  simp

theorem readNameAux_encoded : ∀ (labels : List PyStr) (pre post : List Nat)
    (offset so : Nat) (acc : PyStr) (limit : Option Nat) (fuel : Nat),
    offset + so = pre.length →
    labels.all wfLabel = true →
    labels.length + 1 ≤ fuel →
    (∀ m, limit = some m → so + (encLabels labels).length ≤ m + 1) →
    readNameAux (pre ++ (encLabels labels ++ post)) offset limit fuel so acc
      = some (acc ++ joinLabels labels, so + (encLabels labels).length) := by
  intro labels
  induction labels with
  | nil =>
    intro pre post offset so acc limit fuel hoff _ hfuel _
    obtain ⟨f, rfl⟩ : ∃ f, fuel = f + 1 := ⟨fuel - 1, by omega⟩
    rw [readNameAux]
    have hb : (pre ++ (encLabels [] ++ post))[offset + so]? = some 0 := by
      rw [hoff]
      rw [getElem?_at_len]
      simp [encLabels, encLabel]
    rw [hb]
    dsimp only
    rw [if_neg (by simp)]
    show some (acc, so + 1) = some (acc ++ joinLabels [], so + (encLabels []).length)
    simp [joinLabels, encLabels]
  | cons l rest ih =>
    intro pre post offset so acc limit fuel hoff hwf hfuel hlim
    obtain ⟨f, rfl⟩ : ∃ f, fuel = f + 1 := ⟨fuel - 1, by omega⟩
    simp only [List.all_cons, Bool.and_eq_true] at hwf
    obtain ⟨hwl, hwrest⟩ := hwf
    have hlne : l ≠ [] := by
      intro hl
      rw [hl] at hwl
      simp [wfLabel] at hwl
    have hl63 : l.length ≤ 63 := by
      unfold wfLabel at hwl
      simp only [Bool.decide_and, Bool.and_eq_true, decide_eq_true_eq] at hwl
      exact hwl.2.1
    have hllen : 0 < l.length := List.length_pos.mpr hlne
    -- buffer reshaping
    have hshape : pre ++ (encLabels (l :: rest) ++ post)
        = pre ++ ((l.length :: l.map Char.toNat) ++
            (encLabels rest ++ post)) := by
      unfold encLabels encLabel
      simp [List.append_assoc]
    rw [hshape, readNameAux]
    have hb : (pre ++ ((l.length :: l.map Char.toNat) ++
        (encLabels rest ++ post)))[offset + so]? = some l.length := by
      rw [hoff, getElem?_at_len]
      simp
    rw [hb]
    dsimp only
    have henclen : (encLabels (l :: rest)).length
        = 1 + l.length + (encLabels rest).length := by
      unfold encLabels encLabel
      simp
      omega
    have hcond : l.length ≠ 0 ∧ limitOk limit so = true := by
      refine ⟨by omega, ?_⟩
      rcases limit with _ | m
      · rfl
      · have := hlim m rfl
        rw [henclen] at this
        have hrp := encLabels_length_pos rest
        show decide (so < m) = true
        simp only [decide_eq_true_eq]
        omega
    rw [if_pos hcond]
    rw [if_neg (by omega)]
    -- the slice is exactly the label bytes
    have hslice : sliceBytes (pre ++ ((l.length :: l.map Char.toNat) ++
        (encLabels rest ++ post))) (offset + so + 1)
        (offset + so + 1 + l.length) = l.map Char.toNat := by
      unfold sliceBytes
      have hd : (pre ++ ((l.length :: l.map Char.toNat) ++
          (encLabels rest ++ post))).drop (offset + so + 1)
          = l.map Char.toNat ++ (encLabels rest ++ post) := by
        have : pre ++ ((l.length :: l.map Char.toNat) ++
            (encLabels rest ++ post))
            = (pre ++ [l.length]) ++ (l.map Char.toNat ++
              (encLabels rest ++ post)) := by
          simp [List.append_assoc]
        rw [this]
        have hlen2 : offset + so + 1 = (pre ++ [l.length]).length := by
          simp [hoff]
        rw [hlen2, List.drop_left]
      rw [hd]
      have : offset + so + 1 + l.length - (offset + so + 1) = l.length := by
        omega
      rw [this]
      rw [List.take_append_of_le_length (by simp)]
      rw [List.take_of_length_le (by simp)]
    rw [hslice, map_ofNat_map_toNat]
    -- apply the induction hypothesis
    have happ := ih (pre ++ (l.length :: l.map Char.toNat)) post offset
      (so + 1 + l.length) (acc ++ l ++ ['.']) limit f
      (by simp [← hoff]; omega)
      hwrest
      (by simp at hfuel; omega)
      (by
        intro m hm
        have := hlim m hm
        rw [henclen] at this
        omega)
    have hshape2 : (pre ++ (l.length :: l.map Char.toNat)) ++
        (encLabels rest ++ post)
        = pre ++ ((l.length :: l.map Char.toNat) ++ (encLabels rest ++ post)) := by
      simp [List.append_assoc]
    rw [hshape2] at happ
    rw [happ]
    have h1 : (acc ++ l ++ ['.']) ++ joinLabels rest
        = acc ++ joinLabels (l :: rest) := by
      simp [joinLabels]
    have h2 : so + 1 + l.length + (encLabels rest).length
        = so + (encLabels (l :: rest)).length := by
      rw [henclen]
      omega
    rw [h1, h2]

theorem nameToBytes_foldl (s : PyStr) :
    nameToBytes s = (pySplit '.' s).foldl (fun a p => a ++ encLabel p) [] :=
  rfl

theorem foldl_append_flatMap : ∀ (parts : List PyStr) (acc : List Nat),
    parts.foldl (fun a p => a ++ encLabel p) acc = acc ++ parts.flatMap encLabel := by
  intro parts
  induction parts with
  | nil => intro acc; simp
  | cons x rest ih =>
    intro acc
    simp only [List.foldl_cons, List.flatMap_cons, ih, List.append_assoc]

theorem nameToBytes_eq (s : PyStr) :
    nameToBytes s = (pySplit '.' s).flatMap encLabel := by
  rw [nameToBytes_foldl, foldl_append_flatMap]
  simp

theorem flatMap_encLabel_ge : ∀ (parts : List PyStr),
    parts.length ≤ (parts.flatMap encLabel).length := by
  intro parts
  induction parts with
  | nil => simp
  | cons x rest ih =>
    simp only [List.flatMap_cons, List.length_append, List.length_cons,
      encLabel]
    simp at ih ⊢
    omega

theorem wfName_iff (s : PyStr) : wfName s = true ↔
    ((pySplit '.' s).getLast? = some [] ∧
      (pySplit '.' s).dropLast.all wfLabel = true) := by
  unfold wfName
  exact decide_eq_true_iff

theorem pyJoin_concat_nil (c : Char) : ∀ (ls : List PyStr),
    pyJoin [c] (ls ++ [[]]) = ls.flatMap (fun l => l ++ [c]) := by
  intro ls
  induction ls with
  | nil => rfl
  | cons x rest ih =>
    rcases rest with _ | ⟨y, ys⟩
    · simp [pyJoin]
    · show x ++ [c] ++ pyJoin [c] ((y :: ys) ++ [[]]) = _
      rw [ih]
      simp [List.flatMap_cons, List.append_assoc]

theorem wfName_decomp (s : PyStr) (h : wfName s = true) :
    pySplit '.' s = (pySplit '.' s).dropLast ++ [[]] ∧
      s = joinLabels (pySplit '.' s).dropLast ∧
      nameToBytes s = encLabels (pySplit '.' s).dropLast ∧
      (pySplit '.' s).dropLast.all wfLabel = true ∧
      (pySplit '.' s).dropLast.length + 1 = (pySplit '.' s).length := by
  obtain ⟨hlast, hall⟩ := (wfName_iff s).mp h
  have hne := pySplit_ne_nil '.' s
  have hdecomp : pySplit '.' s = (pySplit '.' s).dropLast ++ [[]] := by
    conv_lhs => rw [← List.dropLast_append_getLast hne]
    congr 1
    have hg : (pySplit '.' s).getLast? = some ((pySplit '.' s).getLast hne) :=
      List.getLast?_eq_getLast _ hne
    rw [hg] at hlast
    simp only [Option.some.injEq] at hlast
    rw [hlast]
  refine ⟨hdecomp, ?_, ?_, hall, ?_⟩
  · conv_lhs => rw [← pyJoin_pySplit '.' s, hdecomp]
    rw [pyJoin_concat_nil]
    rfl
  · rw [nameToBytes_eq]
    conv_lhs => rw [hdecomp]
    rw [List.flatMap_append]
    unfold encLabels
    simp [encLabel]
  · have hlp : 0 < (pySplit '.' s).length := List.length_pos.mpr hne
    simp only [List.length_dropLast]
    omega

theorem parts_le_enc_length (s : PyStr) (h : wfName s = true) :
    (pySplit '.' s).length ≤ (nameToBytes s).length := by
  rw [nameToBytes_eq]
  exact flatMap_encLabel_ge _

theorem readName_encoded (s : PyStr) (pre post : List Nat)
    (limit : Option Nat) (fuel : Nat) (hs : wfName s = true)
    (hfuel : (pySplit '.' s).length ≤ fuel)
    (hlim : ∀ m, limit = some m → (nameToBytes s).length ≤ m + 1) :
    readName (pre ++ (nameToBytes s ++ post)) pre.length limit fuel
      = some (s, (nameToBytes s).length) := by
  obtain ⟨_, hjoin, henc, hall, hlen⟩ := wfName_decomp s hs
  unfold readName
  rw [henc]
  have := readNameAux_encoded (pySplit '.' s).dropLast pre post pre.length 0
    [] limit fuel (by omega) hall (by omega)
    (by
      intro m hm
      have := hlim m hm
      rw [henc] at this
      omega)
  rw [this]
  rw [← hjoin]
  simp

theorem QTYPE_ofNat_val (t : QTYPE) : QTYPE.ofNat? t.val = some t := by
  cases t <;> rfl

theorem QCLASS_ofNat_val (c : QCLASS) : QCLASS.ofNat? c.val = some c := by
  cases c <;> rfl

theorem QTYPE_val_lt (t : QTYPE) : t.val < 65536 := by cases t <;> decide

theorem QCLASS_val_lt (c : QCLASS) : c.val < 65536 := by cases c <;> decide

theorem questionToBytes_length (q : DNSQuestion) :
    (questionToBytes q).length = (nameToBytes q.qname).length + 4 := by
  unfold questionToBytes pack16
  simp

theorem questionsGo_encoded : ∀ (qs : List DNSQuestion) (pre post : List Nat),
    qs.all wfQuestion = true →
    questionsGo (pre ++ ((qs.map questionToBytes).flatten ++ post)) qs.length
        pre.length
      = some (qs, pre.length + ((qs.map questionToBytes).flatten).length) := by
  intro qs
  induction qs with
  | nil =>
    intro pre post _
    simp [questionsGo]
  | cons q rest ih =>
    intro pre post hwf
    simp only [List.all_cons, Bool.and_eq_true] at hwf
    obtain ⟨hwq, hwrest⟩ := hwf
    have hshape : pre ++ (((q :: rest).map questionToBytes).flatten ++ post)
        = pre ++ (nameToBytes q.qname ++ (pack16 q.qtype.val ++
            (pack16 q.qclass.val ++ ((rest.map questionToBytes).flatten
              ++ post)))) := by
      simp [questionToBytes, List.append_assoc]
    rw [hshape]
    set data := pre ++ (nameToBytes q.qname ++ (pack16 q.qtype.val ++
      (pack16 q.qclass.val ++ ((rest.map questionToBytes).flatten ++ post))))
      with hdata
    show questionsGo data (rest.length + 1) pre.length = _
    rw [questionsGo]
    have hfuel : (pySplit '.' q.qname).length ≤ data.length + 1 := by
      have h1 := parts_le_enc_length q.qname hwq
      have h2 : (nameToBytes q.qname).length ≤ data.length := by
        rw [hdata]
        simp
        omega
      omega
    have hrn : readName data pre.length none (data.length + 1)
        = some (q.qname, (nameToBytes q.qname).length) := by
      rw [hdata]
      exact readName_encoded q.qname pre _ none (data.length + 1) hwq
        (by
          have h2 : (nameToBytes q.qname).length
              ≤ (pre ++ (nameToBytes q.qname ++ (pack16 q.qtype.val ++
                (pack16 q.qclass.val ++ ((rest.map questionToBytes).flatten
                  ++ post))))).length := by
            simp
            omega
          have h1 := parts_le_enc_length q.qname hwq
          omega)
        (by intro m hm; cases hm)
    rw [hrn]
    dsimp only
    have hr16a : read16 data (pre.length + (nameToBytes q.qname).length)
        = some q.qtype.val := by
      have heq : data = (pre ++ nameToBytes q.qname) ++ (pack16 q.qtype.val
          ++ (pack16 q.qclass.val ++ ((rest.map questionToBytes).flatten
            ++ post))) := by
        rw [hdata]; simp [List.append_assoc]
      have hlen : pre.length + (nameToBytes q.qname).length
          = (pre ++ nameToBytes q.qname).length := by simp
      rw [heq, hlen]
      exact read16_at _ _ _ (QTYPE_val_lt q.qtype)
    have hr16b : read16 data (pre.length + (nameToBytes q.qname).length + 2)
        = some q.qclass.val := by
      have heq : data = ((pre ++ nameToBytes q.qname) ++ pack16 q.qtype.val)
          ++ (pack16 q.qclass.val ++ ((rest.map questionToBytes).flatten
            ++ post)) := by
        rw [hdata]; simp [List.append_assoc]
      have hlen : pre.length + (nameToBytes q.qname).length + 2
          = ((pre ++ nameToBytes q.qname) ++ pack16 q.qtype.val).length := by
        simp [pack16]
        omega
      rw [heq, hlen]
      exact read16_at _ _ _ (QCLASS_val_lt q.qclass)
    rw [hr16a, hr16b]
    dsimp only
    rw [QTYPE_ofNat_val, QCLASS_ofNat_val]
    dsimp only
    have hrec := ih (pre ++ questionToBytes q) post hwrest
    have heq2 : (pre ++ questionToBytes q) ++
        ((rest.map questionToBytes).flatten ++ post) = data := by
      rw [hdata]
      simp [questionToBytes, List.append_assoc]
    rw [heq2] at hrec
    have hoff2 : pre.length + (nameToBytes q.qname).length + 2 + 4 - 2
        = (pre ++ questionToBytes q).length := by
      simp [questionToBytes_length]
      omega
    have hoff3 : pre.length + (nameToBytes q.qname).length + 2 + 2
        = (pre ++ questionToBytes q).length := by
      simp [questionToBytes_length]
      omega
    rw [show pre.length + (nameToBytes q.qname).length + 4
      = (pre ++ questionToBytes q).length from by
        simp [questionToBytes_length]; omega]
    rw [hrec]
    have hq : { qname := q.qname, qtype := q.qtype, qclass := q.qclass }
        = q := rfl
    rw [hq]
    congr 1
    congr 1
    simp [questionToBytes_length]
    omega

theorem wfRecord_iff (r : DNSRecord) : wfRecord r = true ↔
    ((r.qtype = .NS ∨ r.qtype = .CNAME ∨ r.qtype = .PTR) ∧
      wfName r.name = true ∧ r.ttl < 4294967296 ∧
      wfRdataStr r.rdata = true) := by
  unfold wfRecord
  exact decide_eq_true_iff

theorem recordToBytes_wf (r : DNSRecord) (h : wfRecord r = true) :
    recordToBytes r = some (recEnc r) := by
  obtain ⟨htype, hname, httl, hrd⟩ := (wfRecord_iff r).mp h
  unfold recordToBytes
  rw [if_pos htype]
  rcases hr : r.rdata with s | d
  · unfold recEnc
    rw [hr]
    simp [rdStr, List.append_assoc]
  · rw [hr] at hrd
    simp [wfRdataStr] at hrd

theorem rdata_eq_str (r : DNSRecord) (h : wfRecord r = true) :
    r.rdata = .str (rdStr r.rdata) := by
  obtain ⟨_, _, _, hrd⟩ := (wfRecord_iff r).mp h
  rcases hr : r.rdata with s | d
  · rfl
  · rw [hr] at hrd
    simp [wfRdataStr] at hrd

theorem recEnc_shape (r : DNSRecord) : recEnc r
    = nameToBytes r.name ++ (pack16 r.qtype.val ++ (pack16 r.qclass.val ++
      (pack32 r.ttl ++ (pack16 (nameToBytes (rdStr r.rdata)).length ++
        nameToBytes (rdStr r.rdata))))) := rfl

theorem recEnc_length (r : DNSRecord) : (recEnc r).length
    = (nameToBytes r.name).length + 10
      + (nameToBytes (rdStr r.rdata)).length := by
  rw [recEnc_shape]
  simp [pack16, pack32]
  omega

theorem qtype_val_cases (r : DNSRecord)
    (h : r.qtype = .NS ∨ r.qtype = .CNAME ∨ r.qtype = .PTR) :
    r.qtype.val = 2 ∨ r.qtype.val = 5 ∨ r.qtype.val = 12 := by
  rcases h with h | h | h <;> rw [h] <;> simp [QTYPE.val]

theorem recordsGo_encoded : ∀ (rs : List DNSRecord) (pre post : List Nat),
    rs.all wfRecord = true →
    recordsGo (pre ++ ((rs.map recEnc).flatten ++ post)) rs.length pre.length
      = some (rs.map decTime0,
          pre.length + ((rs.map recEnc).flatten).length) := by
  intro rs
  induction rs with
  | nil =>
    intro pre post _
    simp [recordsGo]
  | cons r rest ih =>
    intro pre post hwf
    simp only [List.all_cons, Bool.and_eq_true] at hwf
    obtain ⟨hwr, hwrest⟩ := hwf
    obtain ⟨htype, hname, httl, hrd⟩ := (wfRecord_iff r).mp hwr
    have hrdname : wfName (rdStr r.rdata) = true := by
      rcases hx : r.rdata with s | d
      · rw [hx] at hrd
        simp only [wfRdataStr, Bool.decide_and, Bool.and_eq_true,
          decide_eq_true_eq] at hrd
        simpa [rdStr, hx] using hrd.1
      · rw [hx] at hrd
        simp [wfRdataStr] at hrd
    have hrdlen : (nameToBytes (rdStr r.rdata)).length < 65536 := by
      rcases hx : r.rdata with s | d
      · rw [hx] at hrd
        simp only [wfRdataStr, Bool.decide_and, Bool.and_eq_true,
          decide_eq_true_eq] at hrd
        simpa [rdStr, hx] using hrd.2
      · rw [hx] at hrd
        simp [wfRdataStr] at hrd
    have hshape : pre ++ (((r :: rest).map recEnc).flatten ++ post)
        = pre ++ (nameToBytes r.name ++ (pack16 r.qtype.val ++
            (pack16 r.qclass.val ++ (pack32 r.ttl ++
              (pack16 (nameToBytes (rdStr r.rdata)).length ++
                (nameToBytes (rdStr r.rdata) ++
                  ((rest.map recEnc).flatten ++ post))))))) := by
      simp only [List.map_cons, List.flatten_cons, recEnc_shape]
      simp [List.append_assoc]
    rw [hshape]
    set data := pre ++ (nameToBytes r.name ++ (pack16 r.qtype.val ++
      (pack16 r.qclass.val ++ (pack32 r.ttl ++
        (pack16 (nameToBytes (rdStr r.rdata)).length ++
          (nameToBytes (rdStr r.rdata) ++
            ((rest.map recEnc).flatten ++ post))))))) with hdata
    show recordsGo data (rest.length + 1) pre.length = _
    rw [recordsGo]
    have hnamelen : (nameToBytes r.name).length ≤ data.length := by
      rw [hdata]
      simp
      omega
    have hrn : readName data pre.length none (data.length + 1)
        = some (r.name, (nameToBytes r.name).length) := by
      rw [hdata]
      refine readName_encoded r.name pre _ none _ hname ?_ (by
        intro m hm
        cases hm)
      have h1 := parts_le_enc_length r.name hname
      rw [← hdata]
      omega
    rw [hrn]
    dsimp only
    have hr16a : read16 data (pre.length + (nameToBytes r.name).length)
        = some r.qtype.val := by
      have heq : data = (pre ++ nameToBytes r.name) ++ (pack16 r.qtype.val
          ++ (pack16 r.qclass.val ++ (pack32 r.ttl ++
            (pack16 (nameToBytes (rdStr r.rdata)).length ++
              (nameToBytes (rdStr r.rdata) ++
                ((rest.map recEnc).flatten ++ post)))))) := by
        rw [hdata]; simp [List.append_assoc]
      rw [heq, show pre.length + (nameToBytes r.name).length
        = (pre ++ nameToBytes r.name).length from by simp only [List.length_append]]
      exact read16_at _ _ _ (QTYPE_val_lt r.qtype)
    have hr16b : read16 data (pre.length + (nameToBytes r.name).length + 2)
        = some r.qclass.val := by
      have heq : data = ((pre ++ nameToBytes r.name) ++ pack16 r.qtype.val)
          ++ (pack16 r.qclass.val ++ (pack32 r.ttl ++
            (pack16 (nameToBytes (rdStr r.rdata)).length ++
              (nameToBytes (rdStr r.rdata) ++
                ((rest.map recEnc).flatten ++ post))))) := by
        rw [hdata]; simp [List.append_assoc]
      rw [heq, show pre.length + (nameToBytes r.name).length + 2
        = (((pre ++ nameToBytes r.name) ++ pack16 r.qtype.val)).length
        from by simp [pack16]; omega]
      exact read16_at _ _ _ (QCLASS_val_lt r.qclass)
    have hr32 : read32 data (pre.length + (nameToBytes r.name).length + 4)
        = some r.ttl := by
      have heq : data = (((pre ++ nameToBytes r.name) ++ pack16 r.qtype.val)
          ++ pack16 r.qclass.val) ++ (pack32 r.ttl ++
            (pack16 (nameToBytes (rdStr r.rdata)).length ++
              (nameToBytes (rdStr r.rdata) ++
                ((rest.map recEnc).flatten ++ post)))) := by
        rw [hdata]; simp [List.append_assoc]
      rw [heq, show pre.length + (nameToBytes r.name).length + 4
        = ((((pre ++ nameToBytes r.name) ++ pack16 r.qtype.val)
            ++ pack16 r.qclass.val)).length
        from by simp [pack16]; omega]
      exact read32_at _ _ _ httl
    have hr16c : read16 data (pre.length + (nameToBytes r.name).length + 8)
        = some (nameToBytes (rdStr r.rdata)).length := by
      have heq : data = ((((pre ++ nameToBytes r.name)
          ++ pack16 r.qtype.val) ++ pack16 r.qclass.val) ++ pack32 r.ttl)
          ++ (pack16 (nameToBytes (rdStr r.rdata)).length ++
            (nameToBytes (rdStr r.rdata) ++
              ((rest.map recEnc).flatten ++ post))) := by
        rw [hdata]; simp [List.append_assoc]
      rw [heq, show pre.length + (nameToBytes r.name).length + 8
        = (((((pre ++ nameToBytes r.name) ++ pack16 r.qtype.val)
            ++ pack16 r.qclass.val) ++ pack32 r.ttl)).length
        from by simp [pack16, pack32]; omega]
      exact read16_at _ _ _ hrdlen
    rw [hr16a, hr16b, hr32, hr16c]
    dsimp only
    rw [if_pos (qtype_val_cases r htype)]
    have hrd2 : readName data
        (pre.length + (nameToBytes r.name).length + 10)
        (some (nameToBytes (rdStr r.rdata)).length) (data.length + 1)
        = some (rdStr r.rdata, (nameToBytes (rdStr r.rdata)).length) := by
      have heq : data = (((((pre ++ nameToBytes r.name)
          ++ pack16 r.qtype.val) ++ pack16 r.qclass.val) ++ pack32 r.ttl)
          ++ pack16 (nameToBytes (rdStr r.rdata)).length)
          ++ (nameToBytes (rdStr r.rdata) ++
            ((rest.map recEnc).flatten ++ post)) := by
        rw [hdata]; simp [List.append_assoc]
      rw [heq, show pre.length + (nameToBytes r.name).length + 10
        = ((((((pre ++ nameToBytes r.name) ++ pack16 r.qtype.val)
            ++ pack16 r.qclass.val) ++ pack32 r.ttl)
            ++ pack16 (nameToBytes (rdStr r.rdata)).length)).length
        from by simp [pack16, pack32]; omega]
      refine readName_encoded (rdStr r.rdata) _ _ _ _ hrdname ?_ ?_
      · have h1 := parts_le_enc_length (rdStr r.rdata) hrdname
        have h2 : (nameToBytes (rdStr r.rdata)).length ≤ data.length := by
          rw [hdata]
          simp
          omega
        rw [← heq]
        omega
      · intro m hm
        simp only [Option.some.injEq] at hm
        omega
    rw [hrd2]
    dsimp only
    rw [QTYPE_ofNat_val, QCLASS_ofNat_val]
    dsimp only
    have hrec := ih (pre ++ recEnc r) post hwrest
    have heq2 : (pre ++ recEnc r) ++ ((rest.map recEnc).flatten ++ post)
        = data := by
      rw [hdata, recEnc_shape]
      simp [List.append_assoc]
    rw [heq2] at hrec
    rw [show pre.length + (nameToBytes r.name).length + 10
        + (nameToBytes (rdStr r.rdata)).length
      = (pre ++ recEnc r).length from by simp [recEnc_length]; omega]
    rw [hrec]
    have hdec : DNSRecord.mk r.name r.qtype r.qclass r.ttl
        (.str (rdStr r.rdata)) 0 = decTime0 r := by
      unfold decTime0
      rw [← rdata_eq_str r hwr]
    rw [hdec]
    congr 1
    congr 1
    simp [recEnc_length]
    omega

theorem flagsWord_lt (hh : DNSHeader) : flagsWord hh < 65536 := by
  rcases hh with ⟨id, qr, op, aa, tc, rd, ra, z, ad, cd, rc, a, b, c, d⟩
  cases qr <;> cases op <;> cases aa <;> cases tc <;> cases rd <;>
    cases ra <;> cases z <;> cases ad <;> cases cd <;> cases rc <;>
    (dsimp only [flagsWord]; decide)

theorem header_flags_unpack (hh : DNSHeader)
    (had : hh.ad = .NOT_AUTHENTICATED) (hcd : hh.cd = .NO_CHECK) :
    QR.ofNat? (Nat.shiftRight (Nat.land (flagsWord hh)
        0b1000000000000000) 15) = some hh.qr ∧
      OPCODE.ofNat? (Nat.shiftRight (Nat.land (flagsWord hh)
        0b0111100000000000) 11) = some hh.opcode ∧
      AA.ofNat? (Nat.shiftRight (Nat.land (flagsWord hh)
        0b0000010000000000) 10) = some hh.aa ∧
      TC.ofNat? (Nat.shiftRight (Nat.land (flagsWord hh)
        0b0000001000000000) 9) = some hh.tc ∧
      RD.ofNat? (Nat.shiftRight (Nat.land (flagsWord hh)
        0b0000000100000000) 8) = some hh.rd ∧
      RA.ofNat? (Nat.shiftRight (Nat.land (flagsWord hh)
        0b0000000010000000) 7) = some hh.ra ∧
      Z.ofNat? (Nat.shiftRight (Nat.land (flagsWord hh)
        0b0000000001110000) 6) = some hh.z ∧
      AD.ofNat? (Nat.shiftRight (Nat.land (flagsWord hh)
        0b0000000000001000) 5) = some hh.ad ∧
      CD.ofNat? (Nat.shiftRight (Nat.land (flagsWord hh)
        0b0000000000000100) 4) = some hh.cd ∧
      RCODE.ofNat? (Nat.land (flagsWord hh) 0b0000000000001111)
        = some hh.rcode := by
  rcases hh with ⟨id, qr, op, aa, tc, rd, ra, z, ad, cd, rc, a, b, c, d⟩
  simp only at had hcd
  subst had
  subst hcd
  cases qr <;> cases op <;> cases aa <;> cases tc <;> cases rd <;>
    cases ra <;> cases z <;> cases rc <;>
    (dsimp only [flagsWord]; decide)

theorem headerToBytes_shape (hh : DNSHeader) : headerToBytes hh
    = pack16 hh.id ++ (pack16 (flagsWord hh) ++ (pack16 hh.qdcount ++
      (pack16 hh.ancount ++ (pack16 hh.nscount ++ pack16 hh.arcount)))) := by
  unfold headerToBytes
  simp [List.append_assoc]

theorem headerToBytes_length (hh : DNSHeader) :
    (headerToBytes hh).length = 12 := by
  unfold headerToBytes pack16
  simp

theorem header_roundtrip (hh : DNSHeader) (rest : List Nat)
    (hid : hh.id < 65536) (hqd : hh.qdcount < 65536)
    (han : hh.ancount < 65536) (hns : hh.nscount < 65536)
    (har : hh.arcount < 65536)
    (had : hh.ad = .NOT_AUTHENTICATED) (hcd : hh.cd = .NO_CHECK) :
    headerFromBytes (headerToBytes hh ++ rest) = some hh := by
  unfold headerFromBytes
  rw [if_neg (by
    simp [headerToBytes_length])]
  have hdata : headerToBytes hh ++ rest = pack16 hh.id ++
      (pack16 (flagsWord hh) ++ (pack16 hh.qdcount ++ (pack16 hh.ancount ++
        (pack16 hh.nscount ++ (pack16 hh.arcount ++ rest))))) := by
    rw [headerToBytes_shape]
    simp [List.append_assoc]
  have hr0 : read16 (headerToBytes hh ++ rest) 0 = some hh.id := by
    rw [hdata]
    have := read16_at [] (pack16 (flagsWord hh) ++ (pack16 hh.qdcount ++
      (pack16 hh.ancount ++ (pack16 hh.nscount ++ (pack16 hh.arcount
        ++ rest))))) hh.id hid
    simpa using this
  have hr2 : read16 (headerToBytes hh ++ rest) 2 = some (flagsWord hh) := by
    rw [hdata]
    have := read16_at (pack16 hh.id) (pack16 hh.qdcount ++
      (pack16 hh.ancount ++ (pack16 hh.nscount ++ (pack16 hh.arcount
        ++ rest)))) (flagsWord hh) (flagsWord_lt hh)
    simpa [pack16] using this
  have hr4 : read16 (headerToBytes hh ++ rest) 4 = some hh.qdcount := by
    rw [hdata]
    have := read16_at (pack16 hh.id ++ pack16 (flagsWord hh))
      (pack16 hh.ancount ++ (pack16 hh.nscount ++ (pack16 hh.arcount
        ++ rest))) hh.qdcount hqd
    simpa [pack16, List.append_assoc] using this
  have hr6 : read16 (headerToBytes hh ++ rest) 6 = some hh.ancount := by
    rw [hdata]
    have := read16_at (pack16 hh.id ++ (pack16 (flagsWord hh) ++
      pack16 hh.qdcount)) (pack16 hh.nscount ++ (pack16 hh.arcount ++ rest))
      hh.ancount han
    simpa [pack16, List.append_assoc] using this
  have hr8 : read16 (headerToBytes hh ++ rest) 8 = some hh.nscount := by
    rw [hdata]
    have := read16_at (pack16 hh.id ++ (pack16 (flagsWord hh) ++
      (pack16 hh.qdcount ++ pack16 hh.ancount))) (pack16 hh.arcount ++ rest)
      hh.nscount hns
    simpa [pack16, List.append_assoc] using this
  have hr10 : read16 (headerToBytes hh ++ rest) 10 = some hh.arcount := by
    rw [hdata]
    have := read16_at (pack16 hh.id ++ (pack16 (flagsWord hh) ++
      (pack16 hh.qdcount ++ (pack16 hh.ancount ++ pack16 hh.nscount)))) rest
      hh.arcount har
    simpa [pack16, List.append_assoc] using this
  rw [hr0, hr2, hr4, hr6, hr8, hr10]
  dsimp only
  obtain ⟨f1, f2, f3, f4, f5, f6, f7, f8, f9, f10⟩ :=
    header_flags_unpack hh had hcd
  rw [f1, f2, f3, f4, f5, f6, f7, f8, f9, f10]

theorem mapM_loop_recordToBytes (rs : List DNSRecord)
    (acc : List (List Nat)) (h : rs.all wfRecord = true) :
    List.mapM.loop recordToBytes rs acc
      = some (acc.reverse ++ rs.map recEnc) := by
  induction rs generalizing acc with
  | nil => simp [List.mapM.loop]
  | cons r rest ih =>
    simp only [List.all_cons, Bool.and_eq_true] at h
    simp only [List.mapM.loop, recordToBytes_wf r h.1, Option.bind_eq_bind,
      Option.some_bind, ih _ h.2]
    simp

theorem mapM_recordToBytes (rs : List DNSRecord) (h : rs.all wfRecord = true) :
    rs.mapM recordToBytes = some (rs.map recEnc) := by
  have := mapM_loop_recordToBytes rs [] h
  simpa [List.mapM] using this

theorem recordEq_decTime0 (r : DNSRecord) : recordEq (decTime0 r) r = true :=
  (recordEq_iff (decTime0 r) r).mpr ⟨rfl, rfl, rfl, rfl, rfl⟩

theorem all₂_decTime0 (rs : List DNSRecord) :
    List.all₂ recordEq (rs.map decTime0) rs = true := by
  induction rs with
  | nil => rfl
  | cons r rest ih =>
    simp only [List.map_cons, List.all₂, recordEq_decTime0 r, if_true]
    exact ih

theorem packetEq_iff (a b : DNSPacket) : packetEq a b = true ↔
    (a.header = b.header ∧ a.question = b.question ∧
      List.all₂ recordEq a.answer_records b.answer_records = true ∧
      List.all₂ recordEq a.authority_records b.authority_records = true ∧
      List.all₂ recordEq a.additional_records b.additional_records = true) := by
  unfold packetEq
  exact decide_eq_true_iff

theorem wfPacket_iff (p : DNSPacket) : wfPacket p = true ↔
    (p.header.id < 65536 ∧ p.header.ad = .NOT_AUTHENTICATED ∧
      p.header.cd = .NO_CHECK ∧
      p.header.qdcount = p.question.length ∧
      p.header.ancount = p.answer_records.length ∧
      p.header.nscount = p.authority_records.length ∧
      p.header.arcount = p.additional_records.length ∧
      p.question.length < 65536 ∧ p.answer_records.length < 65536 ∧
      p.authority_records.length < 65536 ∧
      p.additional_records.length < 65536 ∧
      p.question.all wfQuestion = true ∧ p.answer_records.all wfRecord = true ∧
      p.authority_records.all wfRecord = true ∧
      p.additional_records.all wfRecord = true) := by
  unfold wfPacket
  exact decide_eq_true_iff

/-- C3 (amended): for every well-formed packet whose records are all of the
ENCODABLE types (NS, CNAME, PTR — `DNSRecord.toBytes` raises
`NotImplementedError` on A, AAAA and SOA) and whose header carries the
default `ad`/`cd` flags (the only values the header codec round-trips, see
C2), decoding the bytes produced by encoding yields a packet structurally
equal to the original: name, type, class, ttl and rdata are preserved and
`creation_time` is ignored. -/
theorem C3_amended_packet_roundtrip (p : DNSPacket) (hwf : wfPacket p = true) :
    ∃ bs, packetToBytes p = some bs ∧
      ∃ p2, packetFromBytes bs = some p2 ∧ packetEq p2 p = true := by
  obtain ⟨hid, had, hcd, hqd, han, hns, har, hql, hal, hul, hdl, hqw, haw,
    huw, hdw⟩ := (wfPacket_iff p).mp hwf
  have henc : packetToBytes p = some (headerToBytes p.header ++
      ((p.question.map questionToBytes).flatten ++
        (((p.answer_records.map recEnc).flatten) ++
          (((p.authority_records.map recEnc).flatten) ++
            ((p.additional_records.map recEnc).flatten ++ []))))) := by
    unfold packetToBytes
    rw [mapM_recordToBytes _ haw, mapM_recordToBytes _ huw,
      mapM_recordToBytes _ hdw]
    dsimp only
    simp [List.append_assoc]
  refine ⟨_, henc, ?_⟩
  set bs := headerToBytes p.header ++
    ((p.question.map questionToBytes).flatten ++
      (((p.answer_records.map recEnc).flatten) ++
        (((p.authority_records.map recEnc).flatten) ++
          ((p.additional_records.map recEnc).flatten ++ [])))) with hbs
  have hhdr : headerFromBytes bs = some p.header := by
    rw [hbs]
    exact header_roundtrip p.header _ hid (by omega) (by omega) (by omega)
      (by omega) had hcd
  have hq : questionsFromBytes bs p.header.qdcount
      = some (p.question, (headerToBytes p.header).length +
          ((p.question.map questionToBytes).flatten).length) := by
    unfold questionsFromBytes
    rw [hqd]
    rw [show (12 : Nat) = (headerToBytes p.header).length from
      (headerToBytes_length p.header).symm]
    rw [hbs]
    exact questionsGo_encoded p.question (headerToBytes p.header) _ hqw
  have hanrec : recordsGo bs p.header.ancount
      ((headerToBytes p.header).length +
        ((p.question.map questionToBytes).flatten).length)
      = some (p.answer_records.map decTime0,
          (headerToBytes p.header ++
            (p.question.map questionToBytes).flatten).length +
            ((p.answer_records.map recEnc).flatten).length) := by
    rw [han]
    rw [show (headerToBytes p.header).length +
        ((p.question.map questionToBytes).flatten).length
      = (headerToBytes p.header ++
          (p.question.map questionToBytes).flatten).length from by simp only [List.length_append]]
    have heq : bs = (headerToBytes p.header ++
        (p.question.map questionToBytes).flatten) ++
        (((p.answer_records.map recEnc).flatten) ++
          (((p.authority_records.map recEnc).flatten) ++
            ((p.additional_records.map recEnc).flatten ++ []))) := by
      rw [hbs]; simp [List.append_assoc]
    rw [heq]
    exact recordsGo_encoded p.answer_records _ _ haw
  have haurec : recordsGo bs p.header.nscount
      ((headerToBytes p.header ++
        (p.question.map questionToBytes).flatten).length +
        ((p.answer_records.map recEnc).flatten).length)
      = some (p.authority_records.map decTime0,
          ((headerToBytes p.header ++
            (p.question.map questionToBytes).flatten) ++
            (p.answer_records.map recEnc).flatten).length +
            ((p.authority_records.map recEnc).flatten).length) := by
    rw [hns]
    rw [show (headerToBytes p.header ++
        (p.question.map questionToBytes).flatten).length +
        ((p.answer_records.map recEnc).flatten).length
      = ((headerToBytes p.header ++
          (p.question.map questionToBytes).flatten) ++
          (p.answer_records.map recEnc).flatten).length from by simp only [List.length_append]]
    have heq : bs = ((headerToBytes p.header ++
        (p.question.map questionToBytes).flatten) ++
        (p.answer_records.map recEnc).flatten) ++
        (((p.authority_records.map recEnc).flatten) ++
          ((p.additional_records.map recEnc).flatten ++ [])) := by
      rw [hbs]; simp [List.append_assoc]
    rw [heq]
    exact recordsGo_encoded p.authority_records _ _ huw
  have hadrec : recordsGo bs p.header.arcount
      (((headerToBytes p.header ++
        (p.question.map questionToBytes).flatten) ++
        (p.answer_records.map recEnc).flatten).length +
        ((p.authority_records.map recEnc).flatten).length)
      = some (p.additional_records.map decTime0,
          (((headerToBytes p.header ++
            (p.question.map questionToBytes).flatten) ++
            (p.answer_records.map recEnc).flatten) ++
            (p.authority_records.map recEnc).flatten).length +
            ((p.additional_records.map recEnc).flatten).length) := by
    rw [har]
    rw [show ((headerToBytes p.header ++
        (p.question.map questionToBytes).flatten) ++
        (p.answer_records.map recEnc).flatten).length +
        ((p.authority_records.map recEnc).flatten).length
      = (((headerToBytes p.header ++
          (p.question.map questionToBytes).flatten) ++
          (p.answer_records.map recEnc).flatten) ++
          (p.authority_records.map recEnc).flatten).length from by simp only [List.length_append]]
    have heq : bs = (((headerToBytes p.header ++
        (p.question.map questionToBytes).flatten) ++
        (p.answer_records.map recEnc).flatten) ++
        (p.authority_records.map recEnc).flatten) ++
        ((p.additional_records.map recEnc).flatten ++ []) := by
      rw [hbs]; simp [List.append_assoc]
    rw [heq]
    exact recordsGo_encoded p.additional_records _ _ hdw
  refine ⟨mkDNSPacket p.header p.question (p.answer_records.map decTime0)
    (p.authority_records.map decTime0)
    (p.additional_records.map decTime0), ?_, ?_⟩
  · unfold packetFromBytes
    rw [hhdr]
    dsimp only
    rw [hq]
    dsimp only
    rw [hanrec]
    dsimp only
    rw [haurec]
    dsimp only
    rw [hadrec]
  · rw [packetEq_iff]
    refine ⟨?_, rfl, ?_, ?_, ?_⟩
    · unfold mkDNSPacket
      dsimp only
      rw [List.length_map, List.length_map, List.length_map]
      rw [← hqd, ← han, ← hns, ← har]
    · exact all₂_decTime0 _
    · exact all₂_decTime0 _
    · exact all₂_decTime0 _

/-- Witness for C3 (amended): the round trip holds at the concrete packet
`packet0`, which carries one question and one NS answer record. -/
theorem C3_amended_packet_roundtrip_witness :
    wfPacket packet0 = true ∧
      ∃ bs, packetToBytes packet0 = some bs ∧
        ∃ p2, packetFromBytes bs = some p2 ∧ packetEq p2 packet0 = true :=
  ⟨by decide, C3_amended_packet_roundtrip packet0 (by decide)⟩

/-- Counterexample for C3 as stated: the claim includes packets with A
records, but `DNSRecord.toBytes` raises `NotImplementedError` for the A
type, so such a packet cannot even be encoded and a fortiori does not
round-trip. -/
theorem C3_counterexample_encode_A_fails :
    packetToBytes packetWithA = none ∧ wfRecord aRecExample = false := by
  constructor
  · decide
  · decide

end DNS
